import Mathlib

/-!
# Weighted Score Aggregation & Tabular Report Engine — verification

A shallow embedding of the score-aggregation and report-rendering core of
the tabulation backend (`src/handlers/score.rs`, with the entity records of
`src/handlers/category.rs` and `src/handlers/judge.rs`), together with
theorems settling the specification claims about it.

Modelling conventions:
* `uuid::Uuid` identifiers are modelled as `Nat`.
* Rust `f32`/`f64` arithmetic is modelled over `ℚ`; floating rounding error
  and overflow are not modelled.  The one non-finite phenomenon the claims
  depend on — division by zero producing NaN/infinity — is modelled
  explicitly by the `FVal` type below.
* Machine integers (`i32`, `i64`) are modelled as `Int`; the sums involved
  are far from the overflow range, which is not modelled.
* SQL queries are modelled as pure functions over an in-memory database
  snapshot (`Db`), following the query text.
-/

/-- Result of a floating-point computation: either an ordinary (finite)
value, modelled as a rational, or the non-finite outcome (NaN or ±∞)
produced by dividing by zero. -/
inductive FVal where
  | finite : ℚ → FVal
  | nonFinite : FVal
deriving DecidableEq, Repr

/-- Float division as the Rust code performs it: a zero divisor yields a
non-finite value (NaN when the dividend is also zero, ±∞ otherwise);
any nonzero divisor yields the exact quotient. -/
def fdiv (a b : ℚ) : FVal :=
  if b = 0 then .nonFinite else .finite (a / b)

/-- Multiplication of a float result by a finite factor: a non-finite
operand propagates (NaN·w = NaN, ±∞·w non-finite). -/
def FVal.mulQ : FVal → ℚ → FVal
  | .finite a, b => .finite (a * b)
  | .nonFinite, _ => .nonFinite

/-- Modelled from the spec: `round_to_two_decimals` comes from the `Round`
trait (`use super::Round;`), whose source is not under `src/`; the spec
describes it as rounding to two decimal places, modelled here as rounding
`q * 100` to the nearest integer (ties upward) and dividing back. -/
def round_to_two_decimals (q : ℚ) : ℚ :=
  (round (q * 100) : ℤ) / 100

/-- Two-decimal rendering of a rational, modelling the cell text written by
`format!("{:.2}", x)` for the magnitudes the report produces (nonnegative,
no rounding ties). -/
def fmtTwo (q : ℚ) : String :=
  let m : ℤ := round (q * 100)
  let frac : ℤ := m % 100
  toString (m / 100) ++ "." ++ (if frac < 10 then "0" else "") ++ toString frac

/-- Rendering of a float result with two decimals: `format!("{:.2}", x)`
prints NaN/infinite values as a non-numeric token, modelled as one string. -/
def fmtFVal : FVal → String
  | .finite q => fmtTwo q
  | .nonFinite => "NaN"

/-! ## Entity records (`score.rs`, `category.rs`, `judge.rs`) -/

/-- `Candidate` as used by `score.rs`: name parts, `candidate_number` and
`gender` (`gender == 1` marks male in the partition of
`generate_score_spreadsheet`); per the spec, candidates are global, not
event-scoped. -/
structure Candidate where
  id : Nat
  first_name : String
  middle_name : String
  last_name : String
  candidate_number : Int
  gender : Int
deriving DecidableEq, Repr

/-- `Category` from `category.rs`. -/
structure Category where
  id : Nat
  name : String
  weight : ℚ
  event_id : Nat
deriving DecidableEq, Repr

/-- `Judge` from `judge.rs` (credential fields omitted: never read by the
modelled computations).  `is_active` is the flag of the Rust struct;
`score_exclusion` is the judges-table column the exclusion filter of the
experimental `foo` query refers to — both carried so the exclusion claim
can be stated. -/
structure Judge where
  id : Nat
  name : String
  is_active : Bool
  score_exclusion : Bool
  event_id : Nat
deriving DecidableEq, Repr

/-- `Score` from `score.rs` (`id` and `time_of_scoring` omitted: never read
by the modelled computations). -/
structure Score where
  score : Int
  max : Int
  candidate_id : Nat
  criteria_id : Nat
  category_id : Nat
  judge_id : Nat
deriving DecidableEq, Repr

/-- A criterion row as selected by the CSV exporter
(`SELECT id, name FROM criterias WHERE category_id = ...`), plus the
owning category id to model the table. -/
structure Criteria where
  id : Nat
  name : String
  category_id : Nat
deriving DecidableEq, Repr

/-- An in-memory snapshot of the database tables the engine reads. -/
structure Db where
  candidates : List Candidate
  categories : List Category
  judges : List Judge
  scores : List Score
deriving Repr

/-! ## Aggregator (`get_candidate_final_scores` / `calculate_final_scores`) -/

/-- One row of the aggregation query result (`CandidateScore` in
`score.rs`): candidate identity plus the per-group sums and their weighted
versions. -/
structure CandidateScore where
  candidate_id : Nat
  first_name : String
  middle_name : String
  last_name : String
  total_score : Int
  total_max : Int
  weighted_score : ℚ
  weighted_max : ℚ
deriving DecidableEq, Repr

/-- The join underlying the aggregation query of
`get_candidate_final_scores`: `candidates c LEFT JOIN scores s ON
s.candidate_id = c.id LEFT JOIN categories cat ON s.category_id = cat.id
WHERE cat.event_id = $1`.  The `WHERE` clause on the left-joined column
discards every null-extended row, so the join is modelled as an inner
join. -/
def joinedRows (db : Db) (event_id : Nat) : List (Candidate × Score × Category) :=
  db.candidates.flatMap fun c =>
    (db.scores.filter fun s => decide (s.candidate_id = c.id)).flatMap fun s =>
      ((db.categories.filter fun cat =>
        decide (s.category_id = cat.id ∧ cat.event_id = event_id)).map fun cat => (c, s, cat))

/-- Append a group key if it is not present yet (so a fold with it keeps
the first occurrence of every key, in join order). -/
def addKey (ks : List (Candidate × ℚ)) (k : Candidate × ℚ) : List (Candidate × ℚ) :=
  if k ∈ ks then ks else ks ++ [k]

/-- The `GROUP BY c.id, cat.weight` keys of the aggregation query, first
occurrences in join order.  The candidate record stands in for `c.id`
(candidate ids are primary keys, so the record is determined by the id;
the query also selects the name columns of `c`). -/
def groupKeys (rows : List (Candidate × Score × Category)) : List (Candidate × ℚ) :=
  rows.foldl (fun ks r => addKey ks (r.1, r.2.2.weight)) []

/-- The aggregation row produced for one `(candidate, weight)` group:
`total_score`/`total_max` are `SUM(s.score)`/`SUM(s.max)` over the rows of
the group, and the weighted columns multiply those sums by `cat.weight`. -/
def groupRow (rows : List (Candidate × Score × Category)) (k : Candidate × ℚ) :
    CandidateScore :=
  let grp := rows.filter fun r => decide (r.1.id = k.1.id ∧ r.2.2.weight = k.2)
  let ts : Int := (grp.map fun r => r.2.1.score).sum
  let tm : Int := (grp.map fun r => r.2.1.max).sum
  { candidate_id := k.1.id
    first_name := k.1.first_name
    middle_name := k.1.middle_name
    last_name := k.1.last_name
    total_score := ts
    total_max := tm
    weighted_score := (ts : ℚ) * k.2
    weighted_max := (tm : ℚ) * k.2 }

/-- Sort key of `ORDER BY c.candidate_number, c.gender` (groups of the same
candidate compare equal; their relative order is unspecified in SQL and
modelled as the stable order of first appearance). -/
def keyLe (a b : Candidate × ℚ) : Bool :=
  a.1.candidate_number < b.1.candidate_number ||
    (a.1.candidate_number = b.1.candidate_number && a.1.gender ≤ b.1.gender)

/-- Stable insertion of a key into a list sorted by `keyLe` (placed before
the first element it compares `≤` to, so earlier elements stay before
ties). -/
def insKey (k : Candidate × ℚ) : List (Candidate × ℚ) → List (Candidate × ℚ)
  | [] => [k]
  | x :: xs => if keyLe k x then k :: x :: xs else x :: insKey k xs

/-- Stable sort by `keyLe`, modelling the `ORDER BY` clause. -/
def sortKeys (ks : List (Candidate × ℚ)) : List (Candidate × ℚ) :=
  ks.foldr insKey []

/-- The aggregation query of `get_candidate_final_scores`: one
`CandidateScore` row per `(candidate, category weight)` group of the
joined score rows of the event, ordered by candidate number then
gender. -/
def sumScoresByCandidateCategory (db : Db) (event_id : Nat) : List CandidateScore :=
  (sortKeys (groupKeys (joinedRows db event_id))).map
    (groupRow (joinedRows db event_id))

/-- Removal of leading and trailing whitespace, modelling Rust
`str::trim` (stated over the character list so it evaluates inside the
kernel). -/
def strTrim (s : String) : String :=
  ⟨((s.data.dropWhile Char.isWhitespace).reverse.dropWhile Char.isWhitespace).reverse⟩

/-- Display name composed by `calculate_final_scores`:
`format!("{}, {} {}", last, first, middle).trim()`. -/
def displayName (s : CandidateScore) : String :=
  strTrim (s.last_name ++ ", " ++ s.first_name ++ " " ++ s.middle_name)

/-- One accumulator entry of the `candidate_scores` hash map of
`calculate_final_scores`: the display name fixed at first insertion and
the running sums of the rounded weighted columns. -/
structure AccEntry where
  cid : Nat
  name : String
  s : ℚ
  m : ℚ
deriving DecidableEq, Repr

/-- Processing of one `CandidateScore` row by the loop of
`calculate_final_scores`: `entry(candidate_id).or_insert((name, 0.0, 0.0))`
followed by adding the two-decimal roundings of the weighted columns.
The map is modelled as an association list in key-insertion order; the
iteration order of the Rust `HashMap` is modelled separately (see
`FinalScoresRun`).  `updEntry` is the update applied to an existing entry
of the matching candidate. -/
def updEntry (row : CandidateScore) (e : AccEntry) : AccEntry :=
  if e.cid == row.candidate_id then
    { e with s := e.s + round_to_two_decimals row.weighted_score,
             m := e.m + round_to_two_decimals row.weighted_max }
  else e

/-- The entry freshly inserted for a first-seen candidate: name fixed now,
sums starting from the rounded weighted columns of this row. -/
def newEntry (row : CandidateScore) : AccEntry :=
  { cid := row.candidate_id, name := displayName row,
    s := round_to_two_decimals row.weighted_score,
    m := round_to_two_decimals row.weighted_max }

def addRow (acc : List AccEntry) (row : CandidateScore) : List AccEntry :=
  if acc.any fun e => e.cid == row.candidate_id then acc.map (updEntry row)
  else acc ++ [newEntry row]

/-- The fully accumulated `candidate_scores` map of
`calculate_final_scores`. -/
def candidate_scores (rows : List CandidateScore) : List AccEntry :=
  rows.foldl addRow []

/-- The final score computed for one accumulated entry:
`(weighted_scores_sum / weighted_max_sum) * 100.0`, a non-finite float when
the accumulated maximum is zero (the code performs the division with no
zero check). -/
def finalScoreVal (s m : ℚ) : FVal :=
  (fdiv s m).mulQ 100

/-- Output record of `get_candidate_final_scores`
(`CandidateFinalScore2`). -/
structure CandidateFinalScore2 where
  candidate_id : Nat
  candidate_name : String
  final_score : FVal
deriving DecidableEq, Repr

/-- `calculate_final_scores`: accumulate the rounded weighted columns per
candidate, then divide.  The entries are listed in key-insertion order;
the Rust function returns them in a `HashMap`, whose iteration order is
unspecified. -/
def calculate_final_scores (rows : List CandidateScore) : List CandidateFinalScore2 :=
  (candidate_scores rows).map fun e =>
    { candidate_id := e.cid, candidate_name := e.name,
      final_score := finalScoreVal e.s e.m }

/-- A possible result of one invocation of `get_candidate_final_scores`:
the handler pushes the entries of the final `HashMap` in its iteration
order, an unspecified permutation of its contents. -/
def FinalScoresRun (db : Db) (event_id : Nat) (out : List CandidateFinalScore2) : Prop :=
  out.Perm (calculate_final_scores (sumScoresByCandidateCategory db event_id))

/-- Running sum `S` of a candidate over a list of aggregation rows: the
two-decimal roundings of the weighted scores of the rows of that
candidate. -/
def weightedScoreSum (rows : List CandidateScore) (cid : Nat) : ℚ :=
  ((rows.filter fun r => decide (r.candidate_id = cid)).map
    fun r => round_to_two_decimals r.weighted_score).sum

/-- Running sum `M` of a candidate over a list of aggregation rows: the
two-decimal roundings of the weighted maxima of the rows of that
candidate. -/
def weightedMaxSum (rows : List CandidateScore) (cid : Nat) : ℚ :=
  ((rows.filter fun r => decide (r.candidate_id = cid)).map
    fun r => round_to_two_decimals r.weighted_max).sum

/-- The aggregation rows as the spec words them — grouped per
`(candidate, category)` rather than per `(candidate, category weight)`;
used only to compare the sentence of the spec with the code, whose SQL
groups by `c.id, cat.weight`. -/
def specSumScoresByCandidateCategory (db : Db) (event_id : Nat) : List CandidateScore :=
  db.candidates.flatMap fun c =>
    (db.categories.filter fun cat => decide (cat.event_id = event_id)).filterMap fun cat =>
      let grp := db.scores.filter fun s =>
        decide (s.candidate_id = c.id ∧ s.category_id = cat.id)
      if grp = [] then none else
      let ts : Int := (grp.map fun s => s.score).sum
      let tm : Int := (grp.map fun s => s.max).sum
      some
        { candidate_id := c.id
          first_name := c.first_name
          middle_name := c.middle_name
          last_name := c.last_name
          total_score := ts
          total_max := tm
          weighted_score := (ts : ℚ) * cat.weight
          weighted_max := (tm : ℚ) * cat.weight }

/-! ## Grid renderer (`generate_score_spreadsheet` / `write_scores`)

The worksheet is modelled as the list of cell writes performed, in program
order; a later write to the same cell wins (`cellAt`).  Column-width and
font-format calls are presentation-only and not modelled. -/

/-- A cell value written to the worksheet.  `pct w` stands for the string
`format!("{}%", w * 100.0)` of the weight header (its exact float
rendering is not modelled; no claim depends on it). -/
inductive Cell where
  | str : String → Cell
  | int : Int → Cell
  | pct : ℚ → Cell
deriving DecidableEq, Repr

/-- One cell write: row, column, value. -/
structure WriteOp where
  row : Nat
  col : Nat
  val : Cell
deriving DecidableEq, Repr

/-- The value a sequence of writes leaves at a cell: the latest write to
that cell, if any (later elements of the list take precedence). -/
def findCell (r c : Nat) : List WriteOp → Option Cell
  | [] => none
  | w :: ws =>
      match findCell r c ws with
      | some v => some v
      | none => if w.row = r ∧ w.col = c then some w.val else none

/-- The cell content of the rendered sheet at `(r, c)`. -/
def cellAt (ws : List WriteOp) (r c : Nat) : Option Cell :=
  findCell r c ws

/-- The scalar sum of one judge's scores for one candidate in one category
(`SELECT * FROM scores WHERE candidate_id = .. AND category_id = .. AND
judge_id = ..` followed by a fold adding the `score` fields). -/
def judgeSubtotal (db : Db) (cand : Candidate) (cat : Category) (j : Judge) : Int :=
  ((db.scores.filter fun s =>
    decide (s.candidate_id = cand.id ∧ s.category_id = cat.id ∧ s.judge_id = j.id)).map
      fun s => s.score).sum

/-- The judge subtotal cells of one candidate row, one per judge starting
at column `c` (the Rust loop writes judge `i` at column `col + 2 + i`;
the recursion advances the column instead, which is the same layout). -/
def judgeCells (db : Db) (cand : Candidate) (cat : Category) :
    List Judge → Nat → Nat → List WriteOp
  | [], _, _ => []
  | j :: js, r, c =>
      ⟨r, c, .int (judgeSubtotal db cand cat j)⟩ :: judgeCells db cand cat js r (c + 1)

/-- `total_score` accumulated over the judges of one candidate row. -/
def totalScore (db : Db) (cand : Candidate) (cat : Category) (judges : List Judge) : ℚ :=
  ((judges.map fun j => judgeSubtotal db cand cat j).sum : Int)

/-- The name string written to the grid for a candidate:
`format!("{}, {} {}", last, first, middle)` — written as composed, with no
trimming. -/
def gridName (cand : Candidate) : String :=
  cand.last_name ++ ", " ++ cand.first_name ++ " " ++ cand.middle_name

/-- All writes of one candidate row of `write_scores`: candidate number,
name, judge subtotals, the average over the judge count, and the average
times the category weight, the last two formatted to two decimals. -/
def candidateRowWrites (db : Db) (cand : Candidate) (cat : Category)
    (judges : List Judge) (r c : Nat) : List WriteOp :=
  let avg := fdiv (totalScore db cand cat judges) (judges.length : ℚ)
  [⟨r, c, .int cand.candidate_number⟩,
   ⟨r, c + 1, .str (gridName cand)⟩] ++
  judgeCells db cand cat judges r (c + 2) ++
  [⟨r, c + 2 + judges.length, .str (fmtFVal avg)⟩,
   ⟨r, c + 3 + judges.length, .str (fmtFVal (avg.mulQ cat.weight))⟩]

/-- `write_scores`: one row per candidate, starting at `row` (the Rust
loop writes candidate `idx` at `row + idx`; the recursion advances the row
instead, which is the same layout). -/
def write_scores (db : Db) : List Candidate → Category → List Judge → Nat → Nat → List WriteOp
  | [], _, _, _, _ => []
  | cand :: cands, cat, judges, r, c =>
      candidateRowWrites db cand cat judges r c ++
        write_scores db cands cat judges (r + 1) c

/-- The judges fetched per category block:
`SELECT * FROM judges WHERE event_id = ($1)` — every judge of the
category's event, with no filter on `is_active`/`score_exclusion`. -/
def eventJudges (db : Db) (cat : Category) : List Judge :=
  db.judges.filter fun j => decide (j.event_id = cat.event_id)

/-- The judge-name header cells, one per judge starting at column `c`. -/
def judgeHeaderCells : List Judge → Nat → Nat → List WriteOp
  | [], _, _ => []
  | j :: js, r, c => ⟨r, c, .str j.name⟩ :: judgeHeaderCells js r (c + 1)

/-- One category block of `generate_score_spreadsheet`, starting at row
`off`: merged category header (modelled by its anchor cell), the column
header row, the MALE marker and male rows, then the FEMALE marker and
female rows. -/
def renderBlock (db : Db) (males females : List Candidate) (cat : Category)
    (off : Nat) : List WriteOp :=
  let judges := eventJudges db cat
  [⟨off, 0, .str cat.name⟩,
   ⟨off + 1, 0, .str "Candidate #"⟩,
   ⟨off + 1, 1, .str "Name"⟩] ++
  judgeHeaderCells judges (off + 1) 2 ++
  [⟨off + 1, 2 + judges.length, .str "Average Score"⟩,
   ⟨off + 1, 3 + judges.length, .pct cat.weight⟩,
   ⟨off + 2, 0, .str "MALE"⟩] ++
  write_scores db males cat judges (off + 3) 0 ++
  [⟨off + 3 + males.length, 0, .str "FEMALE"⟩] ++
  write_scores db females cat judges (off + 4 + males.length) 0

/-- The block loop: after each category the row offset advances by
`candidates.len() + 5` (`total` is the length of the full candidate
list). -/
def renderBlocks (db : Db) (males females : List Candidate) (total : Nat) :
    List Category → Nat → List WriteOp
  | [], _ => []
  | cat :: cats, off =>
      renderBlock db males females cat off ++
        renderBlocks db males females total cats (off + total + 5)

/-- The sort key of the candidate query:
`ORDER BY CASE WHEN gender = 1 THEN 1 ELSE 2 END, candidate_number`. -/
def candLe (a b : Candidate) : Bool :=
  let ka : Int := if a.gender = 1 then 1 else 2
  let kb : Int := if b.gender = 1 then 1 else 2
  ka < kb || (ka = kb && a.candidate_number ≤ b.candidate_number)

/-- Stable insertion for the candidate sort. -/
def insCand (x : Candidate) : List Candidate → List Candidate
  | [] => [x]
  | y :: ys => if candLe x y then x :: y :: ys else y :: insCand x ys

/-- The candidate query of `generate_score_spreadsheet`: all candidates
(globally — no event filter), ordered males first, then by candidate
number (stable sort; ties keep store order). -/
def sortCandidates (cands : List Candidate) : List Candidate :=
  cands.foldr insCand []

/-- `generate_score_spreadsheet`: all categories (`SELECT * FROM
categories` — no event filter), all candidates partitioned into males
(`gender == 1`) and the rest, one block per category. -/
def generate_score_spreadsheet (db : Db) : List WriteOp :=
  let cands := sortCandidates db.candidates
  let males := cands.filter fun c => decide (c.gender = 1)
  let females := cands.filter fun c => !(decide (c.gender = 1))
  renderBlocks db males females cands.length db.categories 0

/-- The sorted male candidates of the sheet of `db`. -/
def maleCands (db : Db) : List Candidate :=
  (sortCandidates db.candidates).filter fun c => decide (c.gender = 1)

/-- The sorted female (non-male) candidates of the sheet of `db`. -/
def femaleCands (db : Db) : List Candidate :=
  (sortCandidates db.candidates).filter fun c => !(decide (c.gender = 1))

/-- The first row of the block of category index `k`
(`k * (candidates.len() + 5)`). -/
def blockStart (db : Db) (k : Nat) : Nat :=
  k * (db.candidates.length + 5)

/-! ## Flat exporter (`generate_csv`) -/

/-- One row of the per-criterion score query of `generate_csv`
(`CriteriaScore` in `score.rs`). -/
structure CriteriaScore where
  score : Int
  judge_name : String
  candidate_first_name : String
  candidate_middle_name : String
  candidate_last_name : String
  weight : ℚ
  max : Int
  event_name : String
deriving DecidableEq, Repr

/-- The store as the CSV exporter sees it: each query either returns its
rows or fails with a database error message.  `criteriasQ` is indexed by
category id, `scoresQ` by category id and criterion id. -/
structure CsvStore where
  categoriesQ : Except String (List Category)
  criteriasQ : Nat → Except String (List Criteria)
  scoresQ : Nat → Nat → Except String (List CriteriaScore)

/-- The fixed CSV header row of `generate_csv`. -/
def csvHeaders : List String :=
  ["Event", "Category", "Criteria", "Candidate First Name", "Candidate Middle Name",
   "Candidate Last Name", "Judge", "Score", "Max", "Weight"]

/-- One emitted CSV record, one per score row (the rendering of the
fractional `weight` as text is modelled by `toString`; no claim inspects
it). -/
def scoreRecord (cat : Category) (cri : Criteria) (s : CriteriaScore) : List String :=
  [s.event_name, cat.name, cri.name, s.candidate_first_name, s.candidate_middle_name,
   s.candidate_last_name, s.judge_name, toString s.score, toString s.max, toString s.weight]

/-- The inner loop of `generate_csv` over one category's criteria: fetch
the scores of each criterion in turn and emit one record per score row,
aborting on the first query failure. -/
def criteriaLoop (st : CsvStore) (cat : Category) :
    List Criteria → Except String (List (List String))
  | [] => .ok []
  | cri :: cris =>
      match st.scoresQ cat.id cri.id with
      | .error e => .error ("Failed to get scores: " ++ e)
      | .ok scores =>
          match criteriaLoop st cat cris with
          | .error e => .error e
          | .ok rest => .ok (scores.map (scoreRecord cat cri) ++ rest)

/-- The outer loop of `generate_csv` over the categories: fetch each
category's criteria and run the inner loop, aborting on the first query
failure. -/
def categoryLoop (st : CsvStore) : List Category → Except String (List (List String))
  | [] => .ok []
  | cat :: cats =>
      match st.criteriasQ cat.id with
      | .error e => .error ("Failed to get criterias: " ++ e)
      | .ok cris =>
          match criteriaLoop st cat cris with
          | .error e => .error e
          | .ok recs =>
              match categoryLoop st cats with
              | .error e => .error e
              | .ok rest => .ok (recs ++ rest)

/-- `generate_csv`: header row first, then the records of every category
in store order; any query failure aborts the whole export. -/
def generate_csv (st : CsvStore) : Except String (List (List String)) :=
  match st.categoriesQ with
  | .error e => .error ("Failed to get categories: " ++ e)
  | .ok cats =>
      match categoryLoop st cats with
      | .error e => .error e
      | .ok records => .ok (csvHeaders :: records)

/-- Whether a query or the whole export succeeded. -/
def exceptOk {α : Type} : Except String α → Bool
  | .ok _ => true
  | .error _ => false

/-- The rows of a successful query (unused default for a failed one). -/
def okList {α : Type} : Except String (List α) → List α
  | .ok l => l
  | .error _ => []

/-- The flat record list a fully successful export emits: categories in
store order, then each category's criteria in store order, then one record
per score row as returned by the store. -/
def flatCsvRecords (st : CsvStore) (cats : List Category) : List (List String) :=
  cats.flatMap fun cat =>
    (okList (st.criteriasQ cat.id)).flatMap fun cri =>
      (okList (st.scoresQ cat.id cri.id)).map (scoreRecord cat cri)

/-- All queries the export performs succeed: the category query, each
reached criteria query and each reached scores query. -/
def csvQueriesOk (st : CsvStore) : Prop :=
  exceptOk st.categoriesQ = true ∧
    ∀ cat ∈ okList st.categoriesQ,
      exceptOk (st.criteriasQ cat.id) = true ∧
        ∀ cri ∈ okList (st.criteriasQ cat.id),
          exceptOk (st.scoresQ cat.id cri.id) = true

/-- The total number of score rows across the categories' criteria. -/
def totalScoreRows (st : CsvStore) (cats : List Category) : Nat :=
  (cats.map fun cat =>
    ((okList (st.criteriasQ cat.id)).map fun cri =>
      (okList (st.scoresQ cat.id cri.id)).length).sum).sum

/-- The claim that every block header of the rendered sheet names a
category of the one given event. -/
def OnlyEventCategories (db : Db) (ev : Nat) : Prop :=
  ∀ k, k < db.categories.length →
    ∃ cat ∈ db.categories, cat.event_id = ev ∧
      cellAt (generate_score_spreadsheet db) (blockStart db k) 0 = some (.str cat.name)

/-! ## Concrete inputs used by the claim theorems -/

/-- The worked example of the spec: weights 0.6/0.4, scores 80/100 and
90/100. -/
def dbWeighted : Db :=
  { candidates := [⟨1, "First", "Mid", "Last", 1, 1⟩]
    categories := [⟨10, "A", 3/5, 7⟩, ⟨11, "B", 2/5, 7⟩]
    judges := []
    scores := [⟨80, 100, 1, 0, 10, 0⟩, ⟨90, 100, 1, 0, 11, 0⟩] }

/-- Two categories of one event sharing the weight 0.005: the SQL groups
them together, a per-category grouping would not. -/
def dbTwinWeight : Db :=
  { candidates := [⟨1, "F", "", "L", 1, 1⟩]
    categories := [⟨10, "A", 1/200, 7⟩, ⟨11, "B", 1/200, 7⟩]
    judges := []
    scores := [⟨1, 100, 1, 0, 10, 0⟩, ⟨1, 100, 1, 0, 11, 0⟩] }

/-- One aggregation row whose weighted maximum is zero. -/
def rowsZeroMax : List CandidateScore :=
  [⟨1, "A", "", "B", 5, 0, 5/2, 0⟩]

/-- A minimal snapshot with one scored candidate. -/
def dbSolo : Db :=
  { candidates := [⟨1, "Ann", "", "Lee", 1, 2⟩]
    categories := [⟨10, "Solo", 1/2, 7⟩]
    judges := []
    scores := [⟨9, 10, 1, 0, 10, 0⟩] }

/-- Two scored candidates, giving the final map two entries. -/
def dbTwo : Db :=
  { candidates := [⟨1, "A", "", "X", 1, 1⟩, ⟨2, "B", "", "Y", 2, 1⟩]
    categories := [⟨10, "C", 1/2, 7⟩]
    judges := []
    scores := [⟨10, 10, 1, 0, 10, 0⟩, ⟨8, 10, 2, 0, 10, 0⟩] }

/-- The final-score entry of candidate 1 of `dbTwo`. -/
def entryX : CandidateFinalScore2 := ⟨1, "X, A", .finite 100⟩

/-- The final-score entry of candidate 2 of `dbTwo`. -/
def entryY : CandidateFinalScore2 := ⟨2, "Y, B", .finite 80⟩

/-- Three male and two female candidates, two categories. -/
def dbLayout : Db :=
  { candidates := [⟨1, "M1", "", "A", 1, 1⟩, ⟨2, "M2", "", "B", 2, 1⟩,
      ⟨3, "M3", "", "C", 3, 1⟩, ⟨4, "F1", "", "D", 4, 2⟩, ⟨5, "F2", "", "E", 5, 2⟩]
    categories := [⟨10, "Alpha2", 1/2, 1⟩, ⟨11, "Beta2", 1/2, 1⟩]
    judges := []
    scores := [] }

/-- A judge whose exclusion flag is set in both readings (`is_active =
false`, `score_exclusion = true`). -/
def judgeEx : Judge := ⟨5, "ExJudge", false, true, 1⟩

/-- One category of the event of the excluded judge. -/
def dbExcluded : Db :=
  { candidates := []
    categories := [⟨10, "Solo5", 1/2, 1⟩]
    judges := [judgeEx]
    scores := [] }

/-- Categories of two different events in the store. -/
def dbTwoEvents : Db :=
  { candidates := []
    categories := [⟨10, "AlphaE", 1/2, 1⟩, ⟨11, "BetaE", 1/2, 2⟩]
    judges := []
    scores := [] }

/-- A male candidate with an empty middle name. -/
def candJo : Candidate := ⟨1, "Jo", "", "Kim", 1, 1⟩

/-- A category of event 3. -/
def catTalent : Category := ⟨10, "Talent", 1/2, 3⟩

/-- The one judge of event 3. -/
def judgeOne : Judge := ⟨20, "J1", true, false, 3⟩

/-- One candidate, one judge, two score rows of the same judge (so the
judge cell is a scalar sum over several rows). -/
def dbGrid : Db :=
  { candidates := [candJo]
    categories := [catTalent]
    judges := [judgeOne]
    scores := [⟨7, 10, 1, 0, 10, 20⟩, ⟨5, 10, 1, 0, 10, 20⟩] }

/-- An aggregation row with an empty middle name, for the display-name
contrast. -/
def rowNoMid : CandidateScore := ⟨9, "Grace", "", "Hopper", 0, 0, 0, 0⟩

/-- The candidate carrying the same name parts as `rowNoMid`. -/
def candNoMid : Candidate := ⟨9, "Grace", "", "Hopper", 7, 2⟩

/-- A category/criterion/score fixture for the export witness. -/
def catX : Category := ⟨10, "CatX", 1/2, 1⟩

/-- The criterion of `catX`. -/
def criY : Criteria := ⟨30, "CriY", 10⟩

/-- Two score rows of `criY`. -/
def scOne : CriteriaScore := ⟨8, "J", "F", "M", "L", 1/2, 10, "Ev"⟩

/-- Second score row of `criY`. -/
def scTwo : CriteriaScore := ⟨6, "J", "F", "M", "L", 1/2, 10, "Ev"⟩

/-- A store whose queries all succeed. -/
def stCsv : CsvStore :=
  { categoriesQ := .ok [catX]
    criteriasQ := fun _ => .ok [criY]
    scoresQ := fun _ _ => .ok [scOne, scTwo] }

/-! ## Aggregator lemmas -/

theorem mem_addKey {ks : List (Candidate × ℚ)} {k x : Candidate × ℚ} :
    x ∈ addKey ks k ↔ x ∈ ks ∨ x = k := by
  unfold addKey
  split
  · next h =>
    constructor
    · exact Or.inl
    · rintro (hx | rfl)
      · exact hx
      · exact h
  · simp

theorem mem_foldl_addKey (rows : List (Candidate × Score × Category))
    (ks : List (Candidate × ℚ)) (x : Candidate × ℚ) :
    (x ∈ rows.foldl (fun ks r => addKey ks (r.1, r.2.2.weight)) ks) ↔
      x ∈ ks ∨ ∃ r ∈ rows, x = (r.1, r.2.2.weight) := by
  induction rows generalizing ks with
  | nil => simp
  | cons r rest ih =>
    simp only [List.foldl_cons, ih, mem_addKey, List.mem_cons]
    constructor
    · rintro ((h | h) | h)
      · exact Or.inl h
      · exact Or.inr ⟨r, Or.inl rfl, h⟩
      · obtain ⟨r', hr', hx⟩ := h
        exact Or.inr ⟨r', Or.inr hr', hx⟩
    · rintro (h | ⟨r', (rfl | hr'), hx⟩)
      · exact Or.inl (Or.inl h)
      · exact Or.inl (Or.inr hx)
      · exact Or.inr ⟨r', hr', hx⟩

theorem mem_groupKeys {rows : List (Candidate × Score × Category)} {x : Candidate × ℚ} :
    x ∈ groupKeys rows ↔ ∃ r ∈ rows, x = (r.1, r.2.2.weight) := by
  simpa using mem_foldl_addKey rows [] x

theorem insKey_perm (k : Candidate × ℚ) (l : List (Candidate × ℚ)) :
    (insKey k l).Perm (k :: l) := by
  induction l with
  | nil => exact List.Perm.refl _
  | cons x xs ih =>
    unfold insKey
    split
    · exact List.Perm.refl _
    · exact (ih.cons x).trans (List.Perm.swap k x xs)

theorem sortKeys_perm (ks : List (Candidate × ℚ)) : (sortKeys ks).Perm ks := by
  induction ks with
  | nil => exact List.Perm.refl _
  | cons k ks ih => exact (insKey_perm k (sortKeys ks)).trans (ih.cons k)

theorem mem_sortKeys {ks : List (Candidate × ℚ)} {x : Candidate × ℚ} :
    x ∈ sortKeys ks ↔ x ∈ ks :=
  (sortKeys_perm ks).mem_iff

theorem mem_joinedRows {db : Db} {event_id : Nat} {c : Candidate} {s : Score}
    {cat : Category} :
    ((c, s, cat) ∈ joinedRows db event_id) ↔
      c ∈ db.candidates ∧ s ∈ db.scores ∧ s.candidate_id = c.id ∧
        cat ∈ db.categories ∧ s.category_id = cat.id ∧ cat.event_id = event_id := by
  simp only [joinedRows, List.mem_flatMap, List.mem_map, List.mem_filter,
    decide_eq_true_eq]
  constructor
  · rintro ⟨c', hc', s', ⟨hs', hsc⟩, cat', ⟨hcat', hid, hev⟩, heq⟩
    obtain ⟨rfl, rfl, rfl⟩ : c' = c ∧ s' = s ∧ cat' = cat := by
      refine ⟨?_, ?_, ?_⟩ <;> cases heq <;> rfl
    exact ⟨hc', hs', hsc, hcat', hid, hev⟩
  · rintro ⟨hc, hs, hsc, hcat, hid, hev⟩
    exact ⟨c, hc, s, ⟨hs, hsc⟩, cat, ⟨hcat, hid, hev⟩, rfl⟩

theorem weightedScoreSum_cons (r : CandidateScore) (rows : List CandidateScore)
    (cid : Nat) :
    weightedScoreSum (r :: rows) cid =
      (if r.candidate_id = cid then round_to_two_decimals r.weighted_score else 0) +
        weightedScoreSum rows cid := by
  simp only [weightedScoreSum, List.filter_cons]
  split
  · next h =>
    simp only [decide_eq_true_eq] at h
    simp [h]
  · next h =>
    simp only [decide_eq_true_eq] at h
    simp [h]

theorem weightedMaxSum_cons (r : CandidateScore) (rows : List CandidateScore)
    (cid : Nat) :
    weightedMaxSum (r :: rows) cid =
      (if r.candidate_id = cid then round_to_two_decimals r.weighted_max else 0) +
        weightedMaxSum rows cid := by
  simp only [weightedMaxSum, List.filter_cons]
  split
  · next h =>
    simp only [decide_eq_true_eq] at h
    simp [h]
  · next h =>
    simp only [decide_eq_true_eq] at h
    simp [h]

theorem cid_updEntry (row : CandidateScore) (e : AccEntry) :
    (updEntry row e).cid = e.cid := by
  unfold updEntry
  split <;> rfl

theorem addRow_mem_key (acc : List AccEntry) (row : CandidateScore) :
    ∃ e ∈ addRow acc row, e.cid = row.candidate_id := by
  unfold addRow
  split
  · next h =>
    obtain ⟨e, he, hcid⟩ := List.any_eq_true.mp h
    refine ⟨updEntry row e, List.mem_map_of_mem _ he, ?_⟩
    rw [cid_updEntry]
    exact beq_iff_eq.mp hcid
  · exact ⟨newEntry row, by simp [newEntry], rfl⟩

theorem mem_addRow {acc : List AccEntry} {row : CandidateScore} {e : AccEntry}
    (h : e ∈ addRow acc row) :
    (∃ e1 ∈ acc, e = updEntry row e1) ∨
      ((∀ e1 ∈ acc, e1.cid ≠ row.candidate_id) ∧ e ∈ acc) ∨
      ((∀ e1 ∈ acc, e1.cid ≠ row.candidate_id) ∧ e = newEntry row) := by
  unfold addRow at h
  split at h
  · next =>
    obtain ⟨e1, he1, heq⟩ := List.mem_map.mp h
    exact Or.inl ⟨e1, he1, heq.symm⟩
  · next hno =>
    have hfresh : ∀ e1 ∈ acc, e1.cid ≠ row.candidate_id := by
      intro e1 he1 hcid
      exact hno (List.any_eq_true.mpr ⟨e1, he1, beq_iff_eq.mpr hcid⟩)
    rcases List.mem_append.mp h with h | h
    · exact Or.inr (Or.inl ⟨hfresh, h⟩)
    · exact Or.inr (Or.inr ⟨hfresh, List.mem_singleton.mp h⟩)

theorem name_updEntry (row : CandidateScore) (e : AccEntry) :
    (updEntry row e).name = e.name := by
  unfold updEntry
  split <;> rfl

theorem addRow_keys_sup (acc : List AccEntry) (row : CandidateScore) :
    ∀ e0 ∈ acc, ∃ e1 ∈ addRow acc row, e1.cid = e0.cid := by
  intro e0 he0
  unfold addRow
  split
  · exact ⟨updEntry row e0, List.mem_map_of_mem _ he0, cid_updEntry row e0⟩
  · exact ⟨e0, List.mem_append_left _ he0, rfl⟩

/-- Entry bookkeeping of the accumulation loop: every entry of the final
map either descends from an initial entry (same candidate and name, sums
increased by the rounded weighted sums of the candidate over the processed
rows) or was created by a processed row of its candidate (no initial entry
of that candidate, sums equal to the rounded weighted sums). -/
theorem foldl_addRow_entry (rows : List CandidateScore) (acc : List AccEntry) :
    ∀ e ∈ rows.foldl addRow acc,
      (∃ e0 ∈ acc, e.cid = e0.cid ∧ e.name = e0.name ∧
        e.s = e0.s + weightedScoreSum rows e.cid ∧
        e.m = e0.m + weightedMaxSum rows e.cid) ∨
      ((∀ e0 ∈ acc, e0.cid ≠ e.cid) ∧
        (∃ r ∈ rows, r.candidate_id = e.cid ∧ e.name = displayName r) ∧
        e.s = weightedScoreSum rows e.cid ∧ e.m = weightedMaxSum rows e.cid) := by
  induction rows generalizing acc with
  | nil =>
    intro e he
    simp only [List.foldl_nil] at he
    exact Or.inl ⟨e, he, rfl, rfl, by simp [weightedScoreSum], by simp [weightedMaxSum]⟩
  | cons r rest ih =>
    intro e he
    simp only [List.foldl_cons] at he
    rcases ih (addRow acc r) e he with ⟨e0, he0, hcid, hname, hs, hm⟩ | ⟨hfresh, hsrc, hs, hm⟩
    · rcases mem_addRow he0 with ⟨e1, he1, rfl⟩ | ⟨hnk, he0acc⟩ | ⟨hnk, rfl⟩
      · -- descended from `acc` through the update branch
        rw [cid_updEntry] at hcid
        rw [name_updEntry] at hname
        refine Or.inl ⟨e1, he1, hcid, hname, ?_, ?_⟩
        · rw [hs, weightedScoreSum_cons, hcid]
          unfold updEntry
          by_cases hc : e1.cid = r.candidate_id
          · rw [if_pos (beq_iff_eq.mpr hc), if_pos hc.symm]
            dsimp only
            ring
          · rw [if_neg (by simpa using hc), if_neg fun hx => hc hx.symm, zero_add]
        · rw [hm, weightedMaxSum_cons, hcid]
          unfold updEntry
          by_cases hc : e1.cid = r.candidate_id
          · rw [if_pos (beq_iff_eq.mpr hc), if_pos hc.symm]
            dsimp only
            ring
          · rw [if_neg (by simpa using hc), if_neg fun hx => hc hx.symm, zero_add]
      · -- descended from `acc` unchanged (the row opened a new key)
        have hne : r.candidate_id ≠ e.cid := by
          rw [hcid]
          exact fun hx => hnk e0 he0acc hx.symm
        refine Or.inl ⟨e0, he0acc, hcid, hname, ?_, ?_⟩
        · rw [hs, weightedScoreSum_cons, if_neg hne, zero_add]
        · rw [hm, weightedMaxSum_cons, if_neg hne, zero_add]
      · -- descends from the entry freshly created for `r`
        have hcid' : e.cid = r.candidate_id := hcid
        refine Or.inr ⟨?_, ⟨r, List.mem_cons_self r rest, hcid'.symm, by
          rw [hname]; rfl⟩, ?_, ?_⟩
        · intro e1 he1 hx
          exact hnk e1 he1 (hx.trans hcid')
        · rw [hs, weightedScoreSum_cons, hcid', if_pos rfl]
          rfl
        · rw [hm, weightedMaxSum_cons, hcid', if_pos rfl]
          rfl
    · -- created while processing `rest`
      have hne : r.candidate_id ≠ e.cid := by
        obtain ⟨ek, hek, hekc⟩ := addRow_mem_key acc r
        intro hcontra
        exact hfresh ek hek (hekc.trans hcontra)
      refine Or.inr ⟨?_, ?_, ?_, ?_⟩
      · intro e0 he0
        obtain ⟨e1, he1, hcid1⟩ := addRow_keys_sup acc r e0 he0
        rw [← hcid1]
        exact hfresh e1 he1
      · obtain ⟨r', hr', hrc, hrn⟩ := hsrc
        exact ⟨r', List.mem_cons_of_mem r hr', hrc, hrn⟩
      · rw [hs, weightedScoreSum_cons, if_neg hne, zero_add]
      · rw [hm, weightedMaxSum_cons, if_neg hne, zero_add]

/-- The candidate keys of an accumulator state, in insertion order. -/
def accKeys (acc : List AccEntry) : List Nat :=
  acc.map fun e => e.cid

theorem accKeys_addRow (acc : List AccEntry) (row : CandidateScore) :
    accKeys (addRow acc row) = accKeys acc ∨
      accKeys (addRow acc row) = accKeys acc ++ [row.candidate_id] := by
  unfold addRow
  split
  · left
    simp [accKeys, List.map_map, Function.comp_def, cid_updEntry]
  · right
    simp [accKeys, newEntry]

theorem mem_accKeys_addRow {acc : List AccEntry} {row : CandidateScore} {cid : Nat} :
    cid ∈ accKeys (addRow acc row) ↔ cid ∈ accKeys acc ∨ cid = row.candidate_id := by
  constructor
  · intro h
    rcases accKeys_addRow acc row with heq | heq <;> rw [heq] at h
    · exact Or.inl h
    · simpa using h
  · rintro (h | rfl)
    · obtain ⟨e, he, hc⟩ := List.mem_map.mp h
      obtain ⟨e1, he1, hc1⟩ := addRow_keys_sup acc row e he
      exact List.mem_map.mpr ⟨e1, he1, by rw [hc1, hc]⟩
    · obtain ⟨e, he, hc⟩ := addRow_mem_key acc row
      exact List.mem_map.mpr ⟨e, he, hc⟩

theorem nodup_accKeys_addRow {acc : List AccEntry} (row : CandidateScore)
    (h : (accKeys acc).Nodup) : (accKeys (addRow acc row)).Nodup := by
  unfold addRow
  split
  · next =>
    have : accKeys (acc.map (updEntry row)) = accKeys acc := by
      simp [accKeys, List.map_map, Function.comp_def, cid_updEntry]
    rwa [this]
  · next hno =>
    have hfresh : row.candidate_id ∉ accKeys acc := by
      intro hmem
      obtain ⟨e, he, hc⟩ := List.mem_map.mp hmem
      exact hno (List.any_eq_true.mpr ⟨e, he, beq_iff_eq.mpr hc⟩)
    have : accKeys (acc ++ [newEntry row]) = accKeys acc ++ [row.candidate_id] := by
      simp [accKeys, newEntry]
    rw [this]
    refine List.Nodup.append h (List.nodup_singleton _) ?_
    intro a ha hb
    rw [List.mem_singleton.mp hb] at ha
    exact hfresh ha

theorem nodup_accKeys_foldl (rows : List CandidateScore) (acc : List AccEntry)
    (h : (accKeys acc).Nodup) : (accKeys (rows.foldl addRow acc)).Nodup := by
  induction rows generalizing acc with
  | nil => simpa using h
  | cons r rest ih => exact ih (addRow acc r) (nodup_accKeys_addRow r h)

theorem mem_accKeys_foldl (rows : List CandidateScore) (acc : List AccEntry)
    (cid : Nat) :
    cid ∈ accKeys (rows.foldl addRow acc) ↔
      cid ∈ accKeys acc ∨ ∃ r ∈ rows, r.candidate_id = cid := by
  induction rows generalizing acc with
  | nil => simp
  | cons r rest ih =>
    simp only [List.foldl_cons, ih, mem_accKeys_addRow, List.mem_cons]
    constructor
    · rintro ((h | rfl) | h)
      · exact Or.inl h
      · exact Or.inr ⟨r, Or.inl rfl, rfl⟩
      · obtain ⟨r', hr', hc⟩ := h
        exact Or.inr ⟨r', Or.inr hr', hc⟩
    · rintro (h | ⟨r', (rfl | hr'), hc⟩)
      · exact Or.inl (Or.inl h)
      · exact Or.inl (Or.inr hc.symm)
      · exact Or.inr ⟨r', hr', hc⟩

theorem nodup_keys_candidate_scores (rows : List CandidateScore) :
    (accKeys (candidate_scores rows)).Nodup :=
  nodup_accKeys_foldl rows [] (by simp [accKeys])

theorem mem_keys_candidate_scores {rows : List CandidateScore} {cid : Nat} :
    cid ∈ accKeys (candidate_scores rows) ↔ ∃ r ∈ rows, r.candidate_id = cid := by
  simpa [accKeys] using mem_accKeys_foldl rows [] cid

/-- Specialization of the bookkeeping lemma to the empty initial map: each
entry of `candidate_scores rows` carries exactly the rounded weighted sums
of its candidate and a display name taken from one of its rows. -/
theorem candidate_scores_entry (rows : List CandidateScore) :
    ∀ e ∈ candidate_scores rows,
      (∃ r ∈ rows, r.candidate_id = e.cid ∧ e.name = displayName r) ∧
        e.s = weightedScoreSum rows e.cid ∧ e.m = weightedMaxSum rows e.cid := by
  intro e he
  rcases foldl_addRow_entry rows [] e he with ⟨e0, he0, _⟩ | ⟨_, hsrc, hs, hm⟩
  · exact absurd he0 (List.not_mem_nil e0)
  · exact ⟨hsrc, hs, hm⟩

/-! ## Grid renderer lemmas -/

theorem findCell_cons (r c : Nat) (w : WriteOp) (ws : List WriteOp) :
    findCell r c (w :: ws) =
      (findCell r c ws).or (if w.row = r ∧ w.col = c then some w.val else none) := by
  show (match findCell r c ws with
        | some v => some v
        | none => if w.row = r ∧ w.col = c then some w.val else none) = _
  cases findCell r c ws <;> simp [Option.or]

theorem findCell_append (r c : Nat) (a b : List WriteOp) :
    findCell r c (a ++ b) = (findCell r c b).or (findCell r c a) := by
  induction a with
  | nil => simp [findCell]
  | cons w a ih =>
    rw [List.cons_append, findCell_cons, findCell_cons, ih, Option.or_assoc]

theorem findCell_eq_none (r c : Nat) {ws : List WriteOp}
    (h : ∀ w ∈ ws, ¬(w.row = r ∧ w.col = c)) : findCell r c ws = none := by
  induction ws with
  | nil => rfl
  | cons w ws ih =>
    rw [findCell_cons, ih fun w hw => h w (List.mem_cons_of_mem _ hw)]
    simp [h w (List.mem_cons_self w ws)]

theorem findCell_cons_self (w : WriteOp) (ws : List WriteOp)
    (h : findCell w.row w.col ws = none) :
    findCell w.row w.col (w :: ws) = some w.val := by
  rw [findCell_cons, h]
  simp

theorem row_judgeCells {db : Db} {cand : Candidate} {cat : Category} :
    ∀ {js : List Judge} {r c : Nat} {w : WriteOp},
      w ∈ judgeCells db cand cat js r c → w.row = r := by
  intro js
  induction js with
  | nil => intro r c w h; exact absurd h (List.not_mem_nil w)
  | cons j js ih =>
    intro r c w h
    rcases List.mem_cons.mp h with rfl | h
    · rfl
    · exact ih h

theorem col_judgeCells {db : Db} {cand : Candidate} {cat : Category} :
    ∀ {js : List Judge} {r c : Nat} {w : WriteOp},
      w ∈ judgeCells db cand cat js r c → c ≤ w.col ∧ w.col < c + js.length := by
  intro js
  induction js with
  | nil => intro r c w h; exact absurd h (List.not_mem_nil w)
  | cons j js ih =>
    intro r c w h
    rcases List.mem_cons.mp h with rfl | h
    · show c ≤ c ∧ c < c + (js.length + 1)
      omega
    · obtain ⟨h1, h2⟩ := ih h
      refine ⟨by omega, ?_⟩
      show w.col < c + (js.length + 1)
      omega

theorem findCell_judgeCells {db : Db} {cand : Candidate} {cat : Category} :
    ∀ {js : List Judge} {i : Nat} {j : Judge} {r c : Nat},
      js[i]? = some j →
      findCell r (c + i) (judgeCells db cand cat js r c) =
        some (.int (judgeSubtotal db cand cat j)) := by
  intro js
  induction js with
  | nil => intro i j r c h; simp at h
  | cons j0 js ih =>
    intro i j r c h
    match i with
    | 0 =>
      rw [List.getElem?_cons_zero, Option.some_inj] at h
      subst h
      have hnone : findCell r c (judgeCells db cand cat js r (c + 1)) = none :=
        findCell_eq_none r c fun w hw => by
          obtain ⟨h1, h2⟩ := col_judgeCells hw
          rintro ⟨hr, hc⟩
          omega
      show findCell r c
        (⟨r, c, .int (judgeSubtotal db cand cat j0)⟩ :: judgeCells db cand cat js r (c + 1)) =
          some (.int (judgeSubtotal db cand cat j0))
      rw [findCell_cons, hnone]
      simp
    | i + 1 =>
      rw [List.getElem?_cons_succ] at h
      show findCell r (c + (i + 1)) (⟨r, c, _⟩ :: judgeCells db cand cat js r (c + 1)) = _
      rw [findCell_cons]
      have harith : c + (i + 1) = (c + 1) + i := by omega
      rw [harith, ih h]
      simp [Option.or]

theorem row_judgeHeaderCells :
    ∀ {js : List Judge} {r c : Nat} {w : WriteOp},
      w ∈ judgeHeaderCells js r c → w.row = r := by
  intro js
  induction js with
  | nil => intro r c w h; exact absurd h (List.not_mem_nil w)
  | cons j js ih =>
    intro r c w h
    rcases List.mem_cons.mp h with rfl | h
    · rfl
    · exact ih h

theorem col_judgeHeaderCells :
    ∀ {js : List Judge} {r c : Nat} {w : WriteOp},
      w ∈ judgeHeaderCells js r c → c ≤ w.col ∧ w.col < c + js.length := by
  intro js
  induction js with
  | nil => intro r c w h; exact absurd h (List.not_mem_nil w)
  | cons j js ih =>
    intro r c w h
    rcases List.mem_cons.mp h with rfl | h
    · show c ≤ c ∧ c < c + (js.length + 1)
      omega
    · obtain ⟨h1, h2⟩ := ih h
      refine ⟨by omega, ?_⟩
      show w.col < c + (js.length + 1)
      omega

theorem findCell_judgeHeaderCells :
    ∀ {js : List Judge} {i : Nat} {j : Judge} {r c : Nat},
      js[i]? = some j →
      findCell r (c + i) (judgeHeaderCells js r c) = some (.str j.name) := by
  intro js
  induction js with
  | nil => intro i j r c h; simp at h
  | cons j0 js ih =>
    intro i j r c h
    match i with
    | 0 =>
      rw [List.getElem?_cons_zero, Option.some_inj] at h
      subst h
      have hnone : findCell r c (judgeHeaderCells js r (c + 1)) = none :=
        findCell_eq_none r c fun w hw => by
          obtain ⟨h1, h2⟩ := col_judgeHeaderCells hw
          rintro ⟨hr, hc⟩
          omega
      show findCell r c
        (⟨r, c, .str j0.name⟩ :: judgeHeaderCells js r (c + 1)) = some (.str j0.name)
      rw [findCell_cons, hnone]
      simp
    | i + 1 =>
      rw [List.getElem?_cons_succ] at h
      show findCell r (c + (i + 1)) (⟨r, c, _⟩ :: judgeHeaderCells js r (c + 1)) = _
      rw [findCell_cons]
      have harith : c + (i + 1) = (c + 1) + i := by omega
      rw [harith, ih h]
      simp [Option.or]

theorem findCell_nil (r c : Nat) : findCell r c [] = none := rfl

theorem findCell_pair_fst (r c c2 : Nat) (v1 v2 : Cell) (hne : c2 ≠ c) :
    findCell r c [⟨r, c, v1⟩, ⟨r, c2, v2⟩] = some v1 := by
  rw [findCell_cons, findCell_cons, findCell_nil]
  rw [if_neg (by rintro ⟨-, hc⟩; exact hne hc)]
  rw [if_pos ⟨rfl, rfl⟩]
  rfl

theorem findCell_pair_snd (r c1 c2 : Nat) (v1 v2 : Cell) :
    findCell r c2 [⟨r, c1, v1⟩, ⟨r, c2, v2⟩] = some v2 := by
  rw [findCell_cons, findCell_cons, findCell_nil]
  rw [if_pos ⟨rfl, rfl⟩]
  rfl

theorem row_candidateRowWrites {db : Db} {cand : Candidate} {cat : Category}
    {js : List Judge} {r c : Nat} {w : WriteOp}
    (h : w ∈ candidateRowWrites db cand cat js r c) : w.row = r := by
  simp only [candidateRowWrites, List.mem_append, List.mem_cons,
    List.not_mem_nil, or_false] at h
  rcases h with ((rfl | rfl) | h) | rfl | rfl
  · rfl
  · rfl
  · exact row_judgeCells h
  · rfl
  · rfl

theorem findCell_candRow_num (db : Db) (cand : Candidate) (cat : Category)
    (js : List Judge) (r c : Nat) :
    findCell r c (candidateRowWrites db cand cat js r c) =
      some (.int cand.candidate_number) := by
  simp only [candidateRowWrites]
  rw [findCell_append, findCell_append]
  have hB : findCell r c
      ([⟨r, c + 2 + js.length, Cell.str (fmtFVal (fdiv (totalScore db cand cat js) (js.length : ℚ)))⟩,
        ⟨r, c + 3 + js.length,
          Cell.str (fmtFVal ((fdiv (totalScore db cand cat js) (js.length : ℚ)).mulQ cat.weight))⟩] :
        List WriteOp) = none := by
    refine findCell_eq_none r c fun w hw => ?_
    rcases List.mem_cons.mp hw with rfl | hw
    · rintro ⟨-, hc⟩
      have hc2 : c + 2 + js.length = c := hc
      omega
    rcases List.mem_cons.mp hw with rfl | hw
    · rintro ⟨-, hc⟩
      have hc2 : c + 3 + js.length = c := hc
      omega
    · exact absurd hw (List.not_mem_nil w)
  have hJC : findCell r c (judgeCells db cand cat js r (c + 2)) = none := by
    refine findCell_eq_none r c fun w hw => ?_
    obtain ⟨h1, -⟩ := col_judgeCells hw
    rintro ⟨-, hc⟩
    omega
  have hA : findCell r c
      ([⟨r, c, Cell.int cand.candidate_number⟩, ⟨r, c + 1, Cell.str (gridName cand)⟩] :
        List WriteOp) = some (.int cand.candidate_number) :=
    findCell_pair_fst r c (c + 1) _ _ (by omega)
  rw [hB, hJC, hA]
  rfl

theorem findCell_candRow_name (db : Db) (cand : Candidate) (cat : Category)
    (js : List Judge) (r c : Nat) :
    findCell r (c + 1) (candidateRowWrites db cand cat js r c) =
      some (.str (gridName cand)) := by
  simp only [candidateRowWrites]
  rw [findCell_append, findCell_append]
  have hB : findCell r (c + 1)
      ([⟨r, c + 2 + js.length, Cell.str (fmtFVal (fdiv (totalScore db cand cat js) (js.length : ℚ)))⟩,
        ⟨r, c + 3 + js.length,
          Cell.str (fmtFVal ((fdiv (totalScore db cand cat js) (js.length : ℚ)).mulQ cat.weight))⟩] :
        List WriteOp) = none := by
    refine findCell_eq_none r (c + 1) fun w hw => ?_
    rcases List.mem_cons.mp hw with rfl | hw
    · rintro ⟨-, hc⟩
      have hc2 : c + 2 + js.length = c + 1 := hc
      omega
    rcases List.mem_cons.mp hw with rfl | hw
    · rintro ⟨-, hc⟩
      have hc2 : c + 3 + js.length = c + 1 := hc
      omega
    · exact absurd hw (List.not_mem_nil w)
  have hJC : findCell r (c + 1) (judgeCells db cand cat js r (c + 2)) = none := by
    refine findCell_eq_none r (c + 1) fun w hw => ?_
    obtain ⟨h1, -⟩ := col_judgeCells hw
    rintro ⟨-, hc⟩
    omega
  have hA : findCell r (c + 1)
      ([⟨r, c, Cell.int cand.candidate_number⟩, ⟨r, c + 1, Cell.str (gridName cand)⟩] :
        List WriteOp) = some (.str (gridName cand)) :=
    findCell_pair_snd r c (c + 1) _ _
  rw [hB, hJC, hA]
  rfl

theorem findCell_candRow_judge (db : Db) (cand : Candidate) (cat : Category)
    {js : List Judge} {i : Nat} {j : Judge} (r c : Nat) (h : js[i]? = some j) :
    findCell r (c + 2 + i) (candidateRowWrites db cand cat js r c) =
      some (.int (judgeSubtotal db cand cat j)) := by
  have hlt : i < js.length := by
    by_contra hge
    rw [List.getElem?_eq_none (by omega)] at h
    exact Option.noConfusion h
  simp only [candidateRowWrites]
  rw [findCell_append, findCell_append]
  have hB : findCell r (c + 2 + i)
      ([⟨r, c + 2 + js.length, Cell.str (fmtFVal (fdiv (totalScore db cand cat js) (js.length : ℚ)))⟩,
        ⟨r, c + 3 + js.length,
          Cell.str (fmtFVal ((fdiv (totalScore db cand cat js) (js.length : ℚ)).mulQ cat.weight))⟩] :
        List WriteOp) = none := by
    refine findCell_eq_none r (c + 2 + i) fun w hw => ?_
    rcases List.mem_cons.mp hw with rfl | hw
    · rintro ⟨-, hc⟩
      have hc2 : c + 2 + js.length = c + 2 + i := hc
      omega
    rcases List.mem_cons.mp hw with rfl | hw
    · rintro ⟨-, hc⟩
      have hc2 : c + 3 + js.length = c + 2 + i := hc
      omega
    · exact absurd hw (List.not_mem_nil w)
  have hJC : findCell r (c + 2 + i) (judgeCells db cand cat js r (c + 2)) =
      some (.int (judgeSubtotal db cand cat j)) := by
    have harith : c + 2 + i = (c + 2) + i := rfl
    rw [harith]
    exact findCell_judgeCells h
  rw [hB, hJC]
  rfl

theorem findCell_candRow_avg (db : Db) (cand : Candidate) (cat : Category)
    (js : List Judge) (r c : Nat) :
    findCell r (c + 2 + js.length) (candidateRowWrites db cand cat js r c) =
      some (.str (fmtFVal (fdiv (totalScore db cand cat js) (js.length : ℚ)))) := by
  simp only [candidateRowWrites]
  rw [findCell_append, findCell_append]
  have hB : findCell r (c + 2 + js.length)
      ([⟨r, c + 2 + js.length, Cell.str (fmtFVal (fdiv (totalScore db cand cat js) (js.length : ℚ)))⟩,
        ⟨r, c + 3 + js.length,
          Cell.str (fmtFVal ((fdiv (totalScore db cand cat js) (js.length : ℚ)).mulQ cat.weight))⟩] :
        List WriteOp) =
      some (.str (fmtFVal (fdiv (totalScore db cand cat js) (js.length : ℚ)))) :=
    findCell_pair_fst r (c + 2 + js.length) (c + 3 + js.length) _ _ (by omega)
  rw [hB]
  rfl

theorem findCell_candRow_pct (db : Db) (cand : Candidate) (cat : Category)
    (js : List Judge) (r c : Nat) :
    findCell r (c + 3 + js.length) (candidateRowWrites db cand cat js r c) =
      some (.str (fmtFVal ((fdiv (totalScore db cand cat js) (js.length : ℚ)).mulQ cat.weight))) := by
  simp only [candidateRowWrites]
  rw [findCell_append, findCell_append]
  have hB : findCell r (c + 3 + js.length)
      ([⟨r, c + 2 + js.length, Cell.str (fmtFVal (fdiv (totalScore db cand cat js) (js.length : ℚ)))⟩,
        ⟨r, c + 3 + js.length,
          Cell.str (fmtFVal ((fdiv (totalScore db cand cat js) (js.length : ℚ)).mulQ cat.weight))⟩] :
        List WriteOp) =
      some (.str (fmtFVal ((fdiv (totalScore db cand cat js) (js.length : ℚ)).mulQ cat.weight))) :=
    findCell_pair_snd r (c + 2 + js.length) (c + 3 + js.length) _ _
  rw [hB]
  rfl

theorem rows_write_scores {db : Db} {cat : Category} {js : List Judge} :
    ∀ {cs : List Candidate} {r c : Nat} {w : WriteOp},
      w ∈ write_scores db cs cat js r c → r ≤ w.row ∧ w.row < r + cs.length := by
  intro cs
  induction cs with
  | nil => intro r c w h; exact absurd h (List.not_mem_nil w)
  | cons cand cs ih =>
    intro r c w h
    rcases List.mem_append.mp h with h | h
    · rw [row_candidateRowWrites h]
      show r ≤ r ∧ r < r + (cs.length + 1)
      omega
    · obtain ⟨h1, h2⟩ := ih h
      refine ⟨by omega, ?_⟩
      show w.row < r + (cs.length + 1)
      omega

theorem write_scores_mem_row {db : Db} {cat : Category} {js : List Judge} :
    ∀ {cs : List Candidate} {i : Nat} {cand : Candidate} (r c : Nat),
      cs[i]? = some cand →
      ∃ w ∈ write_scores db cs cat js r c, w.row = r + i := by
  intro cs
  induction cs with
  | nil => intro i cand r c h; simp at h
  | cons cand0 cs ih =>
    intro i cand r c h
    match i with
    | 0 =>
      refine ⟨⟨r, c, .int cand0.candidate_number⟩, ?_, rfl⟩
      exact List.mem_append_left _ (by simp [candidateRowWrites])
    | i + 1 =>
      rw [List.getElem?_cons_succ] at h
      obtain ⟨w, hw, hrow⟩ := ih (r + 1) c h
      exact ⟨w, List.mem_append_right _ hw, by omega⟩

theorem findCell_write_scores {db : Db} {cat : Category} {js : List Judge} :
    ∀ {cs : List Candidate} {i : Nat} {cand : Candidate} (r c c2 : Nat),
      cs[i]? = some cand →
      findCell (r + i) c2 (write_scores db cs cat js r c) =
        findCell (r + i) c2 (candidateRowWrites db cand cat js (r + i) c) := by
  intro cs
  induction cs with
  | nil => intro i cand r c c2 h; simp at h
  | cons cand0 cs ih =>
    intro i cand r c c2 h
    show findCell (r + i) c2
      (candidateRowWrites db cand0 cat js r c ++ write_scores db cs cat js (r + 1) c) = _
    rw [findCell_append]
    match i with
    | 0 =>
      rw [List.getElem?_cons_zero, Option.some_inj] at h
      subst h
      have hrest : findCell (r + 0) c2 (write_scores db cs cat js (r + 1) c) = none := by
        refine findCell_eq_none _ _ fun w hw => ?_
        obtain ⟨h1, -⟩ := rows_write_scores hw
        rintro ⟨hr, -⟩
        omega
      rw [hrest]
      rfl
    | i + 1 =>
      rw [List.getElem?_cons_succ] at h
      have hhead : findCell (r + (i + 1)) c2 (candidateRowWrites db cand0 cat js r c) = none := by
        refine findCell_eq_none _ _ fun w hw => ?_
        rw [row_candidateRowWrites hw]
        rintro ⟨hr, -⟩
        omega
      rw [hhead, Option.or_none]
      have harith : r + (i + 1) = (r + 1) + i := by omega
      rw [harith]
      exact ih (r + 1) c c2 h

theorem row_renderBlock_bounds {db : Db} {ms fs : List Candidate} {cat : Category}
    {off : Nat} {w : WriteOp} (h : w ∈ renderBlock db ms fs cat off) :
    off ≤ w.row ∧ w.row ≤ off + ms.length + fs.length + 3 := by
  simp only [renderBlock, List.mem_append, List.mem_cons, List.not_mem_nil, or_false] at h
  rcases h with (((((rfl | rfl | rfl) | h) | (rfl | rfl | rfl)) | h) | rfl) | h
  · show off ≤ off ∧ off ≤ off + ms.length + fs.length + 3
    omega
  · show off ≤ off + 1 ∧ off + 1 ≤ off + ms.length + fs.length + 3
    omega
  · show off ≤ off + 1 ∧ off + 1 ≤ off + ms.length + fs.length + 3
    omega
  · rw [row_judgeHeaderCells h]
    omega
  · show off ≤ off + 1 ∧ off + 1 ≤ off + ms.length + fs.length + 3
    omega
  · show off ≤ off + 1 ∧ off + 1 ≤ off + ms.length + fs.length + 3
    omega
  · show off ≤ off + 2 ∧ off + 2 ≤ off + ms.length + fs.length + 3
    omega
  · obtain ⟨h1, h2⟩ := rows_write_scores h
    omega
  · show off ≤ off + 3 + ms.length ∧ off + 3 + ms.length ≤ off + ms.length + fs.length + 3
    omega
  · obtain ⟨h1, h2⟩ := rows_write_scores h
    omega

theorem mem_row_renderBlock {db : Db} {ms fs : List Candidate} {cat : Category}
    {off : Nat} {ρ : Nat} :
    (∃ w ∈ renderBlock db ms fs cat off, w.row = ρ) ↔
      off ≤ ρ ∧ ρ ≤ off + ms.length + fs.length + 3 := by
  constructor
  · rintro ⟨w, hw, rfl⟩
    exact row_renderBlock_bounds hw
  · rintro ⟨h1, h2⟩
    rcases Nat.lt_or_ge ρ (off + 3) with h3 | h3
    · -- one of the three fixed header rows
      have hcase : ρ = off ∨ ρ = off + 1 ∨ ρ = off + 2 := by omega
      rcases hcase with h5 | h5 | h5
      · exact ⟨⟨off, 0, .str cat.name⟩, by simp [renderBlock], h5.symm⟩
      · exact ⟨⟨off + 1, 0, .str "Candidate #"⟩, by simp [renderBlock], h5.symm⟩
      · exact ⟨⟨off + 2, 0, .str "MALE"⟩, by simp [renderBlock], h5.symm⟩
    rcases Nat.lt_or_ge ρ (off + 3 + ms.length) with h4 | h4
    · -- a male candidate row
      obtain ⟨cand, hcand⟩ : ∃ cand, ms[ρ - (off + 3)]? = some cand := by
        have hlt : ρ - (off + 3) < ms.length := by omega
        exact ⟨ms[ρ - (off + 3)], List.getElem?_eq_getElem hlt⟩
      obtain ⟨w, hw, hrow⟩ := write_scores_mem_row (off + 3) 0 hcand
      refine ⟨w, ?_, by omega⟩
      simp only [renderBlock, List.mem_append]
      exact Or.inl (Or.inl (Or.inr hw))
    rcases Nat.eq_or_lt_of_le h4 with h5 | h5
    · -- the FEMALE marker row
      exact ⟨⟨off + 3 + ms.length, 0, .str "FEMALE"⟩, by simp [renderBlock], h5⟩
    · -- a female candidate row
      obtain ⟨cand, hcand⟩ : ∃ cand, fs[ρ - (off + 4 + ms.length)]? = some cand := by
        have hlt : ρ - (off + 4 + ms.length) < fs.length := by omega
        exact ⟨fs[ρ - (off + 4 + ms.length)], List.getElem?_eq_getElem hlt⟩
      obtain ⟨w, hw, hrow⟩ := write_scores_mem_row (off + 4 + ms.length) 0 hcand
      refine ⟨w, ?_, by omega⟩
      simp only [renderBlock, List.mem_append]
      exact Or.inr hw

theorem rows_renderBlocks_lb {db : Db} {ms fs : List Candidate} {t : Nat} :
    ∀ {cats : List Category} {off : Nat} {w : WriteOp},
      w ∈ renderBlocks db ms fs t cats off → off ≤ w.row := by
  intro cats
  induction cats with
  | nil => intro off w h; exact absurd h (List.not_mem_nil w)
  | cons cat cats ih =>
    intro off w h
    rcases List.mem_append.mp h with h | h
    · exact (row_renderBlock_bounds h).1
    · have := ih h
      omega

theorem mem_renderBlocks_block {db : Db} {ms fs : List Candidate} {t : Nat} :
    ∀ {cats : List Category} {off : Nat} {w : WriteOp},
      w ∈ renderBlocks db ms fs t cats off →
      ∃ k cat, cats[k]? = some cat ∧ w ∈ renderBlock db ms fs cat (off + k * (t + 5)) := by
  intro cats
  induction cats with
  | nil => intro off w h; exact absurd h (List.not_mem_nil w)
  | cons cat cats ih =>
    intro off w h
    rcases List.mem_append.mp h with h | h
    · exact ⟨0, cat, List.getElem?_cons_zero, by simpa using h⟩
    · obtain ⟨k, cat2, hk, hw⟩ := ih h
      refine ⟨k + 1, cat2, by simpa using hk, ?_⟩
      have harith : off + (k + 1) * (t + 5) = (off + t + 5) + k * (t + 5) := by ring
      rwa [harith]

theorem renderBlocks_block_sub {db : Db} {ms fs : List Candidate} {t : Nat} :
    ∀ {cats : List Category} {k : Nat} {cat : Category} {off : Nat} {w : WriteOp},
      cats[k]? = some cat → w ∈ renderBlock db ms fs cat (off + k * (t + 5)) →
      w ∈ renderBlocks db ms fs t cats off := by
  intro cats
  induction cats with
  | nil => intro k cat off w h; simp at h
  | cons cat0 cats ih =>
    intro k cat off w h hw
    match k with
    | 0 =>
      rw [List.getElem?_cons_zero, Option.some_inj] at h
      subst h
      exact List.mem_append_left _ (by simpa using hw)
    | k + 1 =>
      rw [List.getElem?_cons_succ] at h
      refine List.mem_append_right _ (ih h ?_)
      have harith : (off + t + 5) + k * (t + 5) = off + (k + 1) * (t + 5) := by ring
      rwa [harith]

theorem findCell_renderBlocks {db : Db} {ms fs : List Candidate} {t : Nat}
    (hmf : ms.length + fs.length ≤ t) :
    ∀ {cats : List Category} {k : Nat} {cat : Category} {off ρ c2 : Nat},
      cats[k]? = some cat →
      off + k * (t + 5) ≤ ρ →
      ρ ≤ off + k * (t + 5) + ms.length + fs.length + 3 →
      findCell ρ c2 (renderBlocks db ms fs t cats off) =
        findCell ρ c2 (renderBlock db ms fs cat (off + k * (t + 5))) := by
  intro cats
  induction cats with
  | nil => intro k cat off ρ c2 h; simp at h
  | cons cat0 cats ih =>
    intro k cat off ρ c2 h hlo hhi
    show findCell ρ c2 (renderBlock db ms fs cat0 off ++ renderBlocks db ms fs t cats (off + t + 5)) = _
    rw [findCell_append]
    match k with
    | 0 =>
      rw [List.getElem?_cons_zero, Option.some_inj] at h
      subst h
      simp only [Nat.zero_mul, Nat.add_zero] at hlo hhi
      have hrest : findCell ρ c2 (renderBlocks db ms fs t cats (off + t + 5)) = none := by
        refine findCell_eq_none _ _ fun w hw => ?_
        have := rows_renderBlocks_lb hw
        rintro ⟨hr, -⟩
        omega
      rw [hrest]
      show findCell ρ c2 (renderBlock db ms fs cat0 off) =
        findCell ρ c2 (renderBlock db ms fs cat0 (off + 0 * (t + 5)))
      have harith : off + 0 * (t + 5) = off := by ring
      rw [harith]
    | k + 1 =>
      rw [List.getElem?_cons_succ] at h
      have hhead : findCell ρ c2 (renderBlock db ms fs cat0 off) = none := by
        refine findCell_eq_none _ _ fun w hw => ?_
        obtain ⟨-, h2⟩ := row_renderBlock_bounds hw
        rintro ⟨hr, -⟩
        have hk1 : off + (k + 1) * (t + 5) ≤ ρ := hlo
        have h6 : t + 5 ≤ (k + 1) * (t + 5) :=
          Nat.le_mul_of_pos_left (t + 5) (by omega)
        omega
      rw [hhead, Option.or_none]
      have harith : off + (k + 1) * (t + 5) = (off + t + 5) + k * (t + 5) := by ring
      rw [harith] at hlo hhi ⊢
      exact ih h hlo hhi

theorem findCell_renderBlock_title (db : Db) (ms fs : List Candidate) (cat : Category)
    (off : Nat) :
    findCell off 0 (renderBlock db ms fs cat off) = some (.str cat.name) := by
  simp only [renderBlock]
  rw [findCell_append, findCell_append, findCell_append, findCell_append, findCell_append]
  have hWSf : findCell off 0
      (write_scores db fs cat (eventJudges db cat) (off + 4 + ms.length) 0) = none := by
    refine findCell_eq_none _ _ fun w hw => ?_
    obtain ⟨h1, -⟩ := rows_write_scores hw
    rintro ⟨hr, -⟩
    omega
  have hFEM : findCell off 0 ([⟨off + 3 + ms.length, 0, Cell.str "FEMALE"⟩] : List WriteOp) = none := by
    refine findCell_eq_none _ _ fun w hw => ?_
    rcases List.mem_singleton.mp hw with rfl
    rintro ⟨hr, -⟩
    have hr2 : off + 3 + ms.length = off := hr
    omega
  have hWSm : findCell off 0
      (write_scores db ms cat (eventJudges db cat) (off + 3) 0) = none := by
    refine findCell_eq_none _ _ fun w hw => ?_
    obtain ⟨h1, -⟩ := rows_write_scores hw
    rintro ⟨hr, -⟩
    omega
  have hH3b : findCell off 0
      ([⟨off + 1, 2 + (eventJudges db cat).length, Cell.str "Average Score"⟩,
        ⟨off + 1, 3 + (eventJudges db cat).length, Cell.pct cat.weight⟩,
        ⟨off + 2, 0, Cell.str "MALE"⟩] : List WriteOp) = none := by
    refine findCell_eq_none _ _ fun w hw => ?_
    rcases List.mem_cons.mp hw with rfl | hw
    · rintro ⟨hr, -⟩
      have hr2 : off + 1 = off := hr
      omega
    rcases List.mem_cons.mp hw with rfl | hw
    · rintro ⟨hr, -⟩
      have hr2 : off + 1 = off := hr
      omega
    rcases List.mem_singleton.mp hw with rfl
    rintro ⟨hr, -⟩
    have hr2 : off + 2 = off := hr
    omega
  have hJH : findCell off 0 (judgeHeaderCells (eventJudges db cat) (off + 1) 2) = none := by
    refine findCell_eq_none _ _ fun w hw => ?_
    have := row_judgeHeaderCells hw
    rintro ⟨hr, -⟩
    omega
  have hH3 : findCell off 0
      ([⟨off, 0, Cell.str cat.name⟩, ⟨off + 1, 0, Cell.str "Candidate #"⟩,
        ⟨off + 1, 1, Cell.str "Name"⟩] : List WriteOp) = some (.str cat.name) := by
    rw [findCell_cons, findCell_cons, findCell_cons, findCell_nil]
    rw [if_neg (by rintro ⟨hr, -⟩; have hr2 : off + 1 = off := hr; omega)]
    rw [if_neg (by rintro ⟨hr, -⟩; have hr2 : off + 1 = off := hr; omega)]
    rw [if_pos ⟨rfl, rfl⟩]
    rfl
  rw [hWSf, hFEM, hWSm, hH3b, hJH, hH3]
  rfl

theorem findCell_renderBlock_judgeName (db : Db) (ms fs : List Candidate) (cat : Category)
    (off : Nat) {i : Nat} {j : Judge} (h : (eventJudges db cat)[i]? = some j) :
    findCell (off + 1) (2 + i) (renderBlock db ms fs cat off) = some (.str j.name) := by
  have hlt : i < (eventJudges db cat).length := by
    by_contra hge
    rw [List.getElem?_eq_none (by omega)] at h
    exact Option.noConfusion h
  simp only [renderBlock]
  rw [findCell_append, findCell_append, findCell_append, findCell_append, findCell_append]
  have hWSf : findCell (off + 1) (2 + i)
      (write_scores db fs cat (eventJudges db cat) (off + 4 + ms.length) 0) = none := by
    refine findCell_eq_none _ _ fun w hw => ?_
    obtain ⟨h1, -⟩ := rows_write_scores hw
    rintro ⟨hr, -⟩
    omega
  have hFEM : findCell (off + 1) (2 + i)
      ([⟨off + 3 + ms.length, 0, Cell.str "FEMALE"⟩] : List WriteOp) = none := by
    refine findCell_eq_none _ _ fun w hw => ?_
    rcases List.mem_singleton.mp hw with rfl
    rintro ⟨hr, -⟩
    have hr2 : off + 3 + ms.length = off + 1 := hr
    omega
  have hWSm : findCell (off + 1) (2 + i)
      (write_scores db ms cat (eventJudges db cat) (off + 3) 0) = none := by
    refine findCell_eq_none _ _ fun w hw => ?_
    obtain ⟨h1, -⟩ := rows_write_scores hw
    rintro ⟨hr, -⟩
    omega
  have hH3b : findCell (off + 1) (2 + i)
      ([⟨off + 1, 2 + (eventJudges db cat).length, Cell.str "Average Score"⟩,
        ⟨off + 1, 3 + (eventJudges db cat).length, Cell.pct cat.weight⟩,
        ⟨off + 2, 0, Cell.str "MALE"⟩] : List WriteOp) = none := by
    refine findCell_eq_none _ _ fun w hw => ?_
    rcases List.mem_cons.mp hw with rfl | hw
    · rintro ⟨-, hc⟩
      have hc2 : 2 + (eventJudges db cat).length = 2 + i := hc
      omega
    rcases List.mem_cons.mp hw with rfl | hw
    · rintro ⟨-, hc⟩
      have hc2 : 3 + (eventJudges db cat).length = 2 + i := hc
      omega
    rcases List.mem_singleton.mp hw with rfl
    rintro ⟨hr, -⟩
    have hr2 : off + 2 = off + 1 := hr
    omega
  have hJH : findCell (off + 1) (2 + i)
      (judgeHeaderCells (eventJudges db cat) (off + 1) 2) = some (.str j.name) :=
    findCell_judgeHeaderCells h
  rw [hWSf, hFEM, hWSm, hH3b, hJH]
  rfl

theorem findCell_renderBlock_avgHdr (db : Db) (ms fs : List Candidate) (cat : Category)
    (off : Nat) :
    findCell (off + 1) (2 + (eventJudges db cat).length) (renderBlock db ms fs cat off) =
      some (.str "Average Score") := by
  simp only [renderBlock]
  rw [findCell_append, findCell_append, findCell_append, findCell_append, findCell_append]
  have hWSf : findCell (off + 1) (2 + (eventJudges db cat).length)
      (write_scores db fs cat (eventJudges db cat) (off + 4 + ms.length) 0) = none := by
    refine findCell_eq_none _ _ fun w hw => ?_
    obtain ⟨h1, -⟩ := rows_write_scores hw
    rintro ⟨hr, -⟩
    omega
  have hFEM : findCell (off + 1) (2 + (eventJudges db cat).length)
      ([⟨off + 3 + ms.length, 0, Cell.str "FEMALE"⟩] : List WriteOp) = none := by
    refine findCell_eq_none _ _ fun w hw => ?_
    rcases List.mem_singleton.mp hw with rfl
    rintro ⟨hr, -⟩
    have hr2 : off + 3 + ms.length = off + 1 := hr
    omega
  have hWSm : findCell (off + 1) (2 + (eventJudges db cat).length)
      (write_scores db ms cat (eventJudges db cat) (off + 3) 0) = none := by
    refine findCell_eq_none _ _ fun w hw => ?_
    obtain ⟨h1, -⟩ := rows_write_scores hw
    rintro ⟨hr, -⟩
    omega
  have hH3b : findCell (off + 1) (2 + (eventJudges db cat).length)
      ([⟨off + 1, 2 + (eventJudges db cat).length, Cell.str "Average Score"⟩,
        ⟨off + 1, 3 + (eventJudges db cat).length, Cell.pct cat.weight⟩,
        ⟨off + 2, 0, Cell.str "MALE"⟩] : List WriteOp) = some (.str "Average Score") := by
    rw [findCell_cons, findCell_cons, findCell_cons, findCell_nil]
    rw [if_neg (by rintro ⟨hr, -⟩; have hr2 : off + 2 = off + 1 := hr; omega)]
    rw [if_neg (by
      rintro ⟨-, hc⟩
      have hc2 : 3 + (eventJudges db cat).length = 2 + (eventJudges db cat).length := hc
      omega)]
    rw [if_pos ⟨rfl, rfl⟩]
    rfl
  rw [hWSf, hFEM, hWSm, hH3b]
  rfl

theorem findCell_renderBlock_pctHdr (db : Db) (ms fs : List Candidate) (cat : Category)
    (off : Nat) :
    findCell (off + 1) (3 + (eventJudges db cat).length) (renderBlock db ms fs cat off) =
      some (.pct cat.weight) := by
  simp only [renderBlock]
  rw [findCell_append, findCell_append, findCell_append, findCell_append, findCell_append]
  have hWSf : findCell (off + 1) (3 + (eventJudges db cat).length)
      (write_scores db fs cat (eventJudges db cat) (off + 4 + ms.length) 0) = none := by
    refine findCell_eq_none _ _ fun w hw => ?_
    obtain ⟨h1, -⟩ := rows_write_scores hw
    rintro ⟨hr, -⟩
    omega
  have hFEM : findCell (off + 1) (3 + (eventJudges db cat).length)
      ([⟨off + 3 + ms.length, 0, Cell.str "FEMALE"⟩] : List WriteOp) = none := by
    refine findCell_eq_none _ _ fun w hw => ?_
    rcases List.mem_singleton.mp hw with rfl
    rintro ⟨hr, -⟩
    have hr2 : off + 3 + ms.length = off + 1 := hr
    omega
  have hWSm : findCell (off + 1) (3 + (eventJudges db cat).length)
      (write_scores db ms cat (eventJudges db cat) (off + 3) 0) = none := by
    refine findCell_eq_none _ _ fun w hw => ?_
    obtain ⟨h1, -⟩ := rows_write_scores hw
    rintro ⟨hr, -⟩
    omega
  have hH3b : findCell (off + 1) (3 + (eventJudges db cat).length)
      ([⟨off + 1, 2 + (eventJudges db cat).length, Cell.str "Average Score"⟩,
        ⟨off + 1, 3 + (eventJudges db cat).length, Cell.pct cat.weight⟩,
        ⟨off + 2, 0, Cell.str "MALE"⟩] : List WriteOp) = some (.pct cat.weight) := by
    rw [findCell_cons, findCell_cons, findCell_cons, findCell_nil]
    rw [if_neg (by rintro ⟨hr, -⟩; have hr2 : off + 2 = off + 1 := hr; omega)]
    rw [if_pos ⟨rfl, rfl⟩]
    rfl
  rw [hWSf, hFEM, hWSm, hH3b]
  rfl

theorem findCell_renderBlock_maleRow (db : Db) (ms fs : List Candidate) (cat : Category)
    (off : Nat) {i : Nat} {cand : Candidate} (h : ms[i]? = some cand) (c2 : Nat) :
    findCell (off + 3 + i) c2 (renderBlock db ms fs cat off) =
      findCell (off + 3 + i) c2
        (candidateRowWrites db cand cat (eventJudges db cat) (off + 3 + i) 0) := by
  have hlt : i < ms.length := by
    by_contra hge
    rw [List.getElem?_eq_none (by omega)] at h
    exact Option.noConfusion h
  simp only [renderBlock]
  rw [findCell_append, findCell_append, findCell_append, findCell_append, findCell_append]
  have hWSf : findCell (off + 3 + i) c2
      (write_scores db fs cat (eventJudges db cat) (off + 4 + ms.length) 0) = none := by
    refine findCell_eq_none _ _ fun w hw => ?_
    obtain ⟨h1, -⟩ := rows_write_scores hw
    rintro ⟨hr, -⟩
    omega
  have hFEM : findCell (off + 3 + i) c2
      ([⟨off + 3 + ms.length, 0, Cell.str "FEMALE"⟩] : List WriteOp) = none := by
    refine findCell_eq_none _ _ fun w hw => ?_
    rcases List.mem_singleton.mp hw with rfl
    rintro ⟨hr, -⟩
    have hr2 : off + 3 + ms.length = off + 3 + i := hr
    omega
  have hWSm : findCell (off + 3 + i) c2
      (write_scores db ms cat (eventJudges db cat) (off + 3) 0) =
      findCell (off + 3 + i) c2
        (candidateRowWrites db cand cat (eventJudges db cat) (off + 3 + i) 0) := by
    have harith : off + 3 + i = (off + 3) + i := rfl
    rw [harith]
    exact findCell_write_scores (off + 3) 0 c2 h
  have hH3b : findCell (off + 3 + i) c2
      ([⟨off + 1, 2 + (eventJudges db cat).length, Cell.str "Average Score"⟩,
        ⟨off + 1, 3 + (eventJudges db cat).length, Cell.pct cat.weight⟩,
        ⟨off + 2, 0, Cell.str "MALE"⟩] : List WriteOp) = none := by
    refine findCell_eq_none _ _ fun w hw => ?_
    rcases List.mem_cons.mp hw with rfl | hw
    · rintro ⟨hr, -⟩
      have hr2 : off + 1 = off + 3 + i := hr
      omega
    rcases List.mem_cons.mp hw with rfl | hw
    · rintro ⟨hr, -⟩
      have hr2 : off + 1 = off + 3 + i := hr
      omega
    rcases List.mem_singleton.mp hw with rfl
    rintro ⟨hr, -⟩
    have hr2 : off + 2 = off + 3 + i := hr
    omega
  have hJH : findCell (off + 3 + i) c2
      (judgeHeaderCells (eventJudges db cat) (off + 1) 2) = none := by
    refine findCell_eq_none _ _ fun w hw => ?_
    have := row_judgeHeaderCells hw
    rintro ⟨hr, -⟩
    omega
  have hH3 : findCell (off + 3 + i) c2
      ([⟨off, 0, Cell.str cat.name⟩, ⟨off + 1, 0, Cell.str "Candidate #"⟩,
        ⟨off + 1, 1, Cell.str "Name"⟩] : List WriteOp) = none := by
    refine findCell_eq_none _ _ fun w hw => ?_
    rcases List.mem_cons.mp hw with rfl | hw
    · rintro ⟨hr, -⟩
      have hr2 : off = off + 3 + i := hr
      omega
    rcases List.mem_cons.mp hw with rfl | hw
    · rintro ⟨hr, -⟩
      have hr2 : off + 1 = off + 3 + i := hr
      omega
    rcases List.mem_singleton.mp hw with rfl
    rintro ⟨hr, -⟩
    have hr2 : off + 1 = off + 3 + i := hr
    omega
  rw [hWSf, hFEM, hWSm, hH3b, hJH, hH3]
  cases findCell (off + 3 + i) c2
    (candidateRowWrites db cand cat (eventJudges db cat) (off + 3 + i) 0) <;> rfl

theorem findCell_renderBlock_femaleRow (db : Db) (ms fs : List Candidate) (cat : Category)
    (off : Nat) {i : Nat} {cand : Candidate} (h : fs[i]? = some cand) (c2 : Nat) :
    findCell (off + 4 + ms.length + i) c2 (renderBlock db ms fs cat off) =
      findCell (off + 4 + ms.length + i) c2
        (candidateRowWrites db cand cat (eventJudges db cat) (off + 4 + ms.length + i) 0) := by
  simp only [renderBlock]
  rw [findCell_append, findCell_append, findCell_append, findCell_append, findCell_append]
  have hWSf : findCell (off + 4 + ms.length + i) c2
      (write_scores db fs cat (eventJudges db cat) (off + 4 + ms.length) 0) =
      findCell (off + 4 + ms.length + i) c2
        (candidateRowWrites db cand cat (eventJudges db cat) (off + 4 + ms.length + i) 0) := by
    have harith : off + 4 + ms.length + i = (off + 4 + ms.length) + i := rfl
    rw [harith]
    exact findCell_write_scores (off + 4 + ms.length) 0 c2 h
  have hFEM : findCell (off + 4 + ms.length + i) c2
      ([⟨off + 3 + ms.length, 0, Cell.str "FEMALE"⟩] : List WriteOp) = none := by
    refine findCell_eq_none _ _ fun w hw => ?_
    rcases List.mem_singleton.mp hw with rfl
    rintro ⟨hr, -⟩
    have hr2 : off + 3 + ms.length = off + 4 + ms.length + i := hr
    omega
  have hWSm : findCell (off + 4 + ms.length + i) c2
      (write_scores db ms cat (eventJudges db cat) (off + 3) 0) = none := by
    refine findCell_eq_none _ _ fun w hw => ?_
    obtain ⟨-, h2⟩ := rows_write_scores hw
    rintro ⟨hr, -⟩
    omega
  have hH3b : findCell (off + 4 + ms.length + i) c2
      ([⟨off + 1, 2 + (eventJudges db cat).length, Cell.str "Average Score"⟩,
        ⟨off + 1, 3 + (eventJudges db cat).length, Cell.pct cat.weight⟩,
        ⟨off + 2, 0, Cell.str "MALE"⟩] : List WriteOp) = none := by
    refine findCell_eq_none _ _ fun w hw => ?_
    rcases List.mem_cons.mp hw with rfl | hw
    · rintro ⟨hr, -⟩
      have hr2 : off + 1 = off + 4 + ms.length + i := hr
      omega
    rcases List.mem_cons.mp hw with rfl | hw
    · rintro ⟨hr, -⟩
      have hr2 : off + 1 = off + 4 + ms.length + i := hr
      omega
    rcases List.mem_singleton.mp hw with rfl
    rintro ⟨hr, -⟩
    have hr2 : off + 2 = off + 4 + ms.length + i := hr
    omega
  have hJH : findCell (off + 4 + ms.length + i) c2
      (judgeHeaderCells (eventJudges db cat) (off + 1) 2) = none := by
    refine findCell_eq_none _ _ fun w hw => ?_
    have := row_judgeHeaderCells hw
    rintro ⟨hr, -⟩
    omega
  have hH3 : findCell (off + 4 + ms.length + i) c2
      ([⟨off, 0, Cell.str cat.name⟩, ⟨off + 1, 0, Cell.str "Candidate #"⟩,
        ⟨off + 1, 1, Cell.str "Name"⟩] : List WriteOp) = none := by
    refine findCell_eq_none _ _ fun w hw => ?_
    rcases List.mem_cons.mp hw with rfl | hw
    · rintro ⟨hr, -⟩
      have hr2 : off = off + 4 + ms.length + i := hr
      omega
    rcases List.mem_cons.mp hw with rfl | hw
    · rintro ⟨hr, -⟩
      have hr2 : off + 1 = off + 4 + ms.length + i := hr
      omega
    rcases List.mem_singleton.mp hw with rfl
    rintro ⟨hr, -⟩
    have hr2 : off + 1 = off + 4 + ms.length + i := hr
    omega
  rw [hWSf, hFEM, hWSm, hH3b, hJH, hH3]
  cases findCell (off + 4 + ms.length + i) c2
    (candidateRowWrites db cand cat (eventJudges db cat) (off + 4 + ms.length + i) 0) <;> rfl

theorem length_insCand (x : Candidate) : ∀ l : List Candidate, (insCand x l).length = l.length + 1 := by
  intro l
  induction l with
  | nil => rfl
  | cons y ys ih =>
    unfold insCand
    split
    · rfl
    · simp only [List.length_cons, ih]

theorem length_sortCandidates (l : List Candidate) : (sortCandidates l).length = l.length := by
  induction l with
  | nil => rfl
  | cons x xs ih =>
    show (insCand x (sortCandidates xs)).length = xs.length + 1
    rw [length_insCand, ih]

theorem length_filter_not_split {α : Type} (p : α → Bool) :
    ∀ l : List α, (l.filter p).length + (l.filter fun a => !(p a)).length = l.length := by
  intro l
  induction l with
  | nil => rfl
  | cons x xs ih =>
    by_cases hx : p x
    · simp only [List.filter_cons, hx, Bool.not_true, List.length_cons]
      simpa using by omega
    · have hx2 : p x = false := by simpa using hx
      simp only [List.filter_cons, hx2, Bool.not_false, List.length_cons]
      simpa using by omega

theorem males_females_length (db : Db) :
    (maleCands db).length + (femaleCands db).length = db.candidates.length := by
  rw [← length_sortCandidates db.candidates]
  exact length_filter_not_split _ (sortCandidates db.candidates)

theorem generate_eq (db : Db) :
    generate_score_spreadsheet db =
      renderBlocks db (maleCands db) (femaleCands db)
        (sortCandidates db.candidates).length db.categories 0 := rfl

theorem blockStart_eq (db : Db) (k : Nat) :
    0 + k * ((sortCandidates db.candidates).length + 5) = blockStart db k := by
  rw [length_sortCandidates]
  show 0 + k * (db.candidates.length + 5) = k * (db.candidates.length + 5)
  omega

theorem findCell_sheet_block {db : Db} {k : Nat} {cat : Category}
    (h : db.categories[k]? = some cat) {ρ : Nat} (c2 : Nat)
    (hlo : blockStart db k ≤ ρ)
    (hhi : ρ ≤ blockStart db k + (maleCands db).length + (femaleCands db).length + 3) :
    findCell ρ c2 (generate_score_spreadsheet db) =
      findCell ρ c2 (renderBlock db (maleCands db) (femaleCands db) cat (blockStart db k)) := by
  rw [generate_eq]
  have hmf : (maleCands db).length + (femaleCands db).length ≤
      (sortCandidates db.candidates).length := by
    rw [length_sortCandidates]
    rw [males_females_length]
  have hlo2 : 0 + k * ((sortCandidates db.candidates).length + 5) ≤ ρ := by
    rw [blockStart_eq]
    exact hlo
  have hhi2 : ρ ≤ 0 + k * ((sortCandidates db.candidates).length + 5) +
      (maleCands db).length + (femaleCands db).length + 3 := by
    rw [blockStart_eq]
    exact hhi
  rw [findCell_renderBlocks hmf h hlo2 hhi2, blockStart_eq]

theorem sheet_row_window {db : Db} {k : Nat} {cat : Category}
    (h : db.categories[k]? = some cat) (ρ : Nat) :
    (∃ w ∈ generate_score_spreadsheet db,
        w.row = ρ ∧ blockStart db k ≤ ρ ∧ ρ < blockStart db (k + 1)) ↔
      blockStart db k ≤ ρ ∧
        ρ ≤ blockStart db k + (maleCands db).length + (femaleCands db).length + 3 := by
  have hmf : (maleCands db).length + (femaleCands db).length = db.candidates.length :=
    males_females_length db
  constructor
  · rintro ⟨w, hw, rfl, hlo, hhi⟩
    rw [generate_eq] at hw
    obtain ⟨j, catj, hj, hwj⟩ := mem_renderBlocks_block hw
    obtain ⟨hb1, hb2⟩ := row_renderBlock_bounds hwj
    rw [blockStart_eq] at hb1 hb2
    refine ⟨hlo, ?_⟩
    -- the window forces the write to come from block `k`
    have hstepj : blockStart db (j + 1) = blockStart db j + db.candidates.length + 5 := by
      simp only [blockStart]
      ring
    have hstepk : blockStart db (k + 1) = blockStart db k + db.candidates.length + 5 := by
      simp only [blockStart]
      ring
    rcases Nat.lt_trichotomy j k with hjk | rfl | hjk
    · exfalso
      have hmono : blockStart db (j + 1) ≤ blockStart db k :=
        Nat.mul_le_mul_right _ (by omega)
      omega
    · exact hb2
    · exfalso
      have hmono : blockStart db (k + 1) ≤ blockStart db j :=
        Nat.mul_le_mul_right _ (by omega)
      omega
  · rintro ⟨hlo, hhi⟩
    obtain ⟨w, hw, hrow⟩ := mem_row_renderBlock.mpr ⟨hlo, hhi⟩
    refine ⟨w, ?_, hrow, by omega, ?_⟩
    · rw [generate_eq]
      refine renderBlocks_block_sub h ?_
      rwa [blockStart_eq]
    · have : blockStart db (k + 1) = blockStart db k + db.candidates.length + 5 := by
        simp only [blockStart]
        ring
      omega

theorem findCell_renderBlock_hdrBeyond (db : Db) (ms fs : List Candidate) (cat : Category)
    (off : Nat) {c2 : Nat} (hc : 3 + (eventJudges db cat).length < c2) :
    findCell (off + 1) c2 (renderBlock db ms fs cat off) = none := by
  simp only [renderBlock]
  refine findCell_eq_none _ _ fun w hw => ?_
  simp only [List.mem_append, List.mem_cons, List.not_mem_nil, or_false] at hw
  rcases hw with (((((rfl | rfl | rfl) | hw) | (rfl | rfl | rfl)) | hw) | rfl) | hw
  · rintro ⟨hr, -⟩
    have hr2 : off = off + 1 := hr
    omega
  · rintro ⟨-, hcc⟩
    have hc2 : (0 : Nat) = c2 := hcc
    omega
  · rintro ⟨-, hcc⟩
    have hc2 : (1 : Nat) = c2 := hcc
    omega
  · obtain ⟨-, h2⟩ := col_judgeHeaderCells hw
    rintro ⟨-, hcc⟩
    omega
  · rintro ⟨-, hcc⟩
    have hc2 : 2 + (eventJudges db cat).length = c2 := hcc
    omega
  · rintro ⟨-, hcc⟩
    have hc2 : 3 + (eventJudges db cat).length = c2 := hcc
    omega
  · rintro ⟨hr, -⟩
    have hr2 : off + 2 = off + 1 := hr
    omega
  · obtain ⟨h1, -⟩ := rows_write_scores hw
    rintro ⟨hr, -⟩
    omega
  · rintro ⟨hr, -⟩
    have hr2 : off + 3 + ms.length = off + 1 := hr
    omega
  · obtain ⟨h1, -⟩ := rows_write_scores hw
    rintro ⟨hr, -⟩
    omega

/-! ## Flat exporter lemmas -/

theorem exceptOk_criteriaLoop (st : CsvStore) (cat : Category) :
    ∀ cris : List Criteria,
      exceptOk (criteriaLoop st cat cris) =
        cris.all fun cri => exceptOk (st.scoresQ cat.id cri.id) := by
  intro cris
  induction cris with
  | nil => rfl
  | cons cri cris ih =>
    simp only [criteriaLoop, List.all_cons]
    cases hq : st.scoresQ cat.id cri.id with
    | error e => simp [exceptOk]
    | ok scores =>
      dsimp only
      cases hl : criteriaLoop st cat cris with
      | error e =>
        rw [hl] at ih
        simp only [exceptOk] at ih ⊢
        simp only [Bool.true_and]
        exact ih
      | ok rest =>
        rw [hl] at ih
        simp only [exceptOk] at ih ⊢
        simp only [Bool.true_and]
        exact ih

theorem criteriaLoop_ok (st : CsvStore) (cat : Category) :
    ∀ cris : List Criteria,
      (∀ cri ∈ cris, exceptOk (st.scoresQ cat.id cri.id) = true) →
      criteriaLoop st cat cris =
        .ok (cris.flatMap fun cri =>
          (okList (st.scoresQ cat.id cri.id)).map (scoreRecord cat cri)) := by
  intro cris
  induction cris with
  | nil => intro h; rfl
  | cons cri cris ih =>
    intro h
    have hok := h cri (List.mem_cons_self cri cris)
    simp only [criteriaLoop, List.flatMap_cons]
    cases hq : st.scoresQ cat.id cri.id with
    | error e =>
      rw [hq] at hok
      exact absurd hok (by simp [exceptOk])
    | ok scores =>
      rw [ih fun c hc => h c (List.mem_cons_of_mem _ hc)]
      simp [okList, hq]

theorem exceptOk_categoryLoop (st : CsvStore) :
    ∀ cats : List Category,
      exceptOk (categoryLoop st cats) =
        cats.all fun cat =>
          exceptOk (st.criteriasQ cat.id) &&
            ((okList (st.criteriasQ cat.id)).all fun cri =>
              exceptOk (st.scoresQ cat.id cri.id)) := by
  intro cats
  induction cats with
  | nil => rfl
  | cons cat cats ih =>
    simp only [categoryLoop, List.all_cons]
    cases hq : st.criteriasQ cat.id with
    | error e => simp [exceptOk]
    | ok cris =>
      dsimp only
      have hcl := exceptOk_criteriaLoop st cat cris
      cases hl : criteriaLoop st cat cris with
      | error e =>
        rw [hl] at hcl
        simp only [exceptOk, okList] at hcl ⊢
        simp only [Bool.true_and]
        rw [← hcl]
        simp
      | ok recs =>
        rw [hl] at hcl
        simp only [exceptOk, okList] at hcl
        cases hr : categoryLoop st cats with
        | error e =>
          rw [hr] at ih
          simp only [exceptOk, okList] at ih ⊢
          simp only [Bool.true_and]
          rw [← hcl, ← ih]
          simp
        | ok rest =>
          rw [hr] at ih
          simp only [exceptOk, okList] at ih ⊢
          simp only [Bool.true_and]
          rw [← hcl, ← ih]
          simp

theorem categoryLoop_ok (st : CsvStore) :
    ∀ cats : List Category,
      (∀ cat ∈ cats, exceptOk (st.criteriasQ cat.id) = true ∧
        ∀ cri ∈ okList (st.criteriasQ cat.id), exceptOk (st.scoresQ cat.id cri.id) = true) →
      categoryLoop st cats = .ok (flatCsvRecords st cats) := by
  intro cats
  induction cats with
  | nil => intro h; rfl
  | cons cat cats ih =>
    intro h
    obtain ⟨hcri, hsc⟩ := h cat (List.mem_cons_self cat cats)
    simp only [categoryLoop]
    cases hq : st.criteriasQ cat.id with
    | error e =>
      rw [hq] at hcri
      exact absurd hcri (by simp [exceptOk])
    | ok cris =>
      have hsc2 : ∀ cri ∈ cris, exceptOk (st.scoresQ cat.id cri.id) = true := by
        intro cri hc
        refine hsc cri ?_
        rw [hq]
        exact hc
      dsimp only
      rw [criteriaLoop_ok st cat cris hsc2]
      rw [ih fun c hc => h c (List.mem_cons_of_mem _ hc)]
      simp only [flatCsvRecords, List.flatMap_cons]
      rw [hq]
      rfl

theorem exceptOk_generate_csv (st : CsvStore) :
    exceptOk (generate_csv st) =
      (exceptOk st.categoriesQ &&
        (okList st.categoriesQ).all fun cat =>
          exceptOk (st.criteriasQ cat.id) &&
            ((okList (st.criteriasQ cat.id)).all fun cri =>
              exceptOk (st.scoresQ cat.id cri.id))) := by
  unfold generate_csv
  cases hq : st.categoriesQ with
  | error e => simp [exceptOk]
  | ok cats =>
    dsimp only
    have hb := exceptOk_categoryLoop st cats
    cases hl : categoryLoop st cats with
    | error e =>
      rw [hl] at hb
      simp only [exceptOk, okList] at hb ⊢
      simp only [Bool.true_and]
      exact hb
    | ok records =>
      rw [hl] at hb
      simp only [exceptOk, okList] at hb ⊢
      simp only [Bool.true_and]
      exact hb

theorem generate_csv_ok_iff (st : CsvStore) :
    exceptOk (generate_csv st) = true ↔ csvQueriesOk st := by
  rw [exceptOk_generate_csv]
  unfold csvQueriesOk
  simp [List.all_eq_true, Bool.and_eq_true]

theorem generate_csv_success (st : CsvStore) (h : csvQueriesOk st) :
    generate_csv st = .ok (csvHeaders :: flatCsvRecords st (okList st.categoriesQ)) := by
  obtain ⟨h1, h2⟩ := h
  unfold generate_csv
  cases hq : st.categoriesQ with
  | error e =>
    rw [hq] at h1
    exact absurd h1 (by simp [exceptOk])
  | ok cats =>
    dsimp only
    rw [hq] at h2
    simp only [okList] at h2 ⊢
    rw [categoryLoop_ok st cats h2]

theorem length_flatCsvRecords (st : CsvStore) (cats : List Category) :
    (flatCsvRecords st cats).length = totalScoreRows st cats := by
  simp [flatCsvRecords, totalScoreRows, List.length_flatMap, List.map_map,
    Function.comp_def, List.length_map]

theorem generate_csv_shape (st : CsvStore) (rows : List (List String))
    (h : generate_csv st = .ok rows) :
    rows.head? = some csvHeaders ∧
      rows.length = 1 + totalScoreRows st (okList st.categoriesQ) := by
  have hok : exceptOk (generate_csv st) = true := by
    rw [h]
    rfl
  have hq := (generate_csv_ok_iff st).mp hok
  have hsucc := generate_csv_success st hq
  rw [h] at hsucc
  obtain rfl : rows = csvHeaders :: flatCsvRecords st (okList st.categoriesQ) := by
    exact Except.ok.inj hsucc
  refine ⟨rfl, ?_⟩
  simp [length_flatCsvRecords]
  omega

/-! ## Claim theorems -/

theorem map_cid_calculate (rows : List CandidateScore) :
    (calculate_final_scores rows).map (fun e => e.candidate_id) =
      accKeys (candidate_scores rows) := by
  simp only [calculate_final_scores, accKeys, List.map_map]
  rfl

/-- C3: for every snapshot and event, the final-score pipeline
(`get_candidate_final_scores`: aggregation query then
`calculate_final_scores`) returns exactly one entry per distinct candidate
with at least one score row in the event — the output candidate ids are
pairwise distinct, and an id appears exactly when the candidate exists and
has a score whose category belongs to the event. -/
theorem final_scores_one_entry_per_scored_candidate (db : Db) (ev : Nat) :
    ((calculate_final_scores (sumScoresByCandidateCategory db ev)).map
        (fun e => e.candidate_id)).Nodup ∧
    (∀ cid : Nat,
      (∃ e ∈ calculate_final_scores (sumScoresByCandidateCategory db ev),
          e.candidate_id = cid) ↔
        ∃ c ∈ db.candidates, c.id = cid ∧
          ∃ s ∈ db.scores, s.candidate_id = cid ∧
            ∃ cat ∈ db.categories, s.category_id = cat.id ∧ cat.event_id = ev) := by
  constructor
  · rw [map_cid_calculate]
    exact nodup_keys_candidate_scores _
  · intro cid
    have h1 : (∃ e ∈ calculate_final_scores (sumScoresByCandidateCategory db ev),
        e.candidate_id = cid) ↔
        cid ∈ accKeys (candidate_scores (sumScoresByCandidateCategory db ev)) := by
      rw [← map_cid_calculate]
      exact List.mem_map.symm
    rw [h1, mem_keys_candidate_scores]
    constructor
    · rintro ⟨r, hr, hcid⟩
      simp only [sumScoresByCandidateCategory] at hr
      obtain ⟨k, hk, rfl⟩ := List.mem_map.mp hr
      rw [mem_sortKeys] at hk
      obtain ⟨row, hrow, rfl⟩ := mem_groupKeys.mp hk
      obtain ⟨c, s, cat⟩ := row
      obtain ⟨hc, hs, hsc, hcat, hsid, hev⟩ := mem_joinedRows.mp hrow
      have hcid2 : c.id = cid := hcid
      exact ⟨c, hc, hcid2, s, hs, by rw [hsc, hcid2], cat, hcat, hsid, hev⟩
    · rintro ⟨c, hc, hcid, s, hs, hscand, cat, hcat, hsid, hev⟩
      refine ⟨groupRow (joinedRows db ev) (c, cat.weight), ?_, hcid⟩
      simp only [sumScoresByCandidateCategory]
      refine List.mem_map_of_mem _ ?_
      rw [mem_sortKeys]
      exact mem_groupKeys.mpr
        ⟨(c, s, cat), mem_joinedRows.mpr ⟨hc, hs, by rw [hscand, hcid], hcat, hsid, hev⟩, rfl⟩

/-- C3 witness: on a concrete snapshot the entry of the one scored
candidate is present. -/
theorem final_scores_one_entry_witness :
    ∃ e ∈ calculate_final_scores (sumScoresByCandidateCategory dbSolo 7),
      e.candidate_id = 1 :=
  ((final_scores_one_entry_per_scored_candidate dbSolo 7).2 1).mpr
    ⟨⟨1, "Ann", "", "Lee", 1, 2⟩, by simp [dbSolo], rfl,
      ⟨9, 10, 1, 0, 10, 0⟩, by simp [dbSolo], rfl,
      ⟨10, "Solo", 1/2, 7⟩, by simp [dbSolo], rfl, rfl⟩

/-- C1 counterexample: the aggregation query groups by `(candidate,
category weight)` (`GROUP BY c.id, cat.weight`), not by `(candidate,
category)`.  With two same-event categories of equal weight 0.005 and one
point scored in each, the code computes a final score of 1.00 while the
per-(candidate, category) computation the claim describes yields 2.00. -/
theorem weight_grouping_counterexample :
    calculate_final_scores (sumScoresByCandidateCategory dbTwinWeight 7) =
        [⟨1, "L, F", .finite 1⟩] ∧
      calculate_final_scores (specSumScoresByCandidateCategory dbTwinWeight 7) =
        [⟨1, "L, F", .finite 2⟩] ∧
      FVal.finite (1 : ℚ) ≠ FVal.finite 2 := by
  refine ⟨?_, ?_, ?_⟩
  · norm_num [calculate_final_scores, candidate_scores, addRow, updEntry, newEntry,
      displayName, strTrim, finalScoreVal, fdiv, FVal.mulQ, round_to_two_decimals, round_eq,
      sumScoresByCandidateCategory, joinedRows, groupKeys, addKey, groupRow,
      sortKeys, insKey, keyLe, dbTwinWeight]
    decide
  · have hspec : specSumScoresByCandidateCategory dbTwinWeight 7 =
        [⟨1, "F", "", "L", 1, 100, 1/200, 1/2⟩, ⟨1, "F", "", "L", 1, 100, 1/200, 1/2⟩] := by
      norm_num [specSumScoresByCandidateCategory, dbTwinWeight, List.filterMap_cons]
    rw [hspec]
    norm_num [calculate_final_scores, candidate_scores, addRow, updEntry, newEntry,
      displayName, strTrim, finalScoreVal, fdiv, FVal.mulQ, round_to_two_decimals, round_eq]
    decide
  · intro h
    rw [FVal.finite.injEq] at h
    norm_num at h

/-- C1 (amended): every entry of `calculate_final_scores` carries
`(S / M) * 100` where `S` and `M` accumulate the two-decimal roundings of
the weighted score/max of the candidate's rows; the aggregation rows carry
`weighted = total * weight` for their group weight (groups are per
`(candidate, category weight)`); and on the worked example of the spec the
final score is exactly 84. -/
theorem final_score_formula :
    (∀ (rows : List CandidateScore) (e : CandidateFinalScore2),
        e ∈ calculate_final_scores rows →
        e.final_score =
          finalScoreVal (weightedScoreSum rows e.candidate_id)
            (weightedMaxSum rows e.candidate_id)) ∧
    (∀ (db : Db) (ev : Nat) (r : CandidateScore),
        r ∈ sumScoresByCandidateCategory db ev →
        ∃ w : ℚ, r.weighted_score = (r.total_score : ℚ) * w ∧
          r.weighted_max = (r.total_max : ℚ) * w) ∧
    calculate_final_scores (sumScoresByCandidateCategory dbWeighted 7) =
      [⟨1, "Last, First Mid", .finite 84⟩] := by
  refine ⟨?_, ?_, ?_⟩
  · intro rows e he
    obtain ⟨e0, he0, rfl⟩ := List.mem_map.mp he
    obtain ⟨-, hs, hm⟩ := candidate_scores_entry rows e0 he0
    show finalScoreVal e0.s e0.m = _
    rw [hs, hm]
  · intro db ev r hr
    simp only [sumScoresByCandidateCategory] at hr
    obtain ⟨k, hk, rfl⟩ := List.mem_map.mp hr
    exact ⟨k.2, rfl, rfl⟩
  · norm_num [calculate_final_scores, candidate_scores, addRow, updEntry, newEntry,
      displayName, strTrim, finalScoreVal, fdiv, FVal.mulQ, round_to_two_decimals, round_eq,
      sumScoresByCandidateCategory, joinedRows, groupKeys, addKey, groupRow,
      sortKeys, insKey, keyLe, dbWeighted]
    decide

/-- C1 witness: the formula instantiated on the worked example. -/
theorem final_score_formula_witness :
    (⟨1, "Last, First Mid", FVal.finite 84⟩ : CandidateFinalScore2).final_score =
      finalScoreVal
        (weightedScoreSum (sumScoresByCandidateCategory dbWeighted 7) 1)
        (weightedMaxSum (sumScoresByCandidateCategory dbWeighted 7) 1) := by
  refine final_score_formula.1 (sumScoresByCandidateCategory dbWeighted 7) _ ?_
  rw [final_score_formula.2.2]
  exact List.mem_singleton_self _

/-- C2 counterexample: a candidate whose accumulated weighted maximum is
zero still receives an entry — with a non-finite final score — instead of
an explicit error; `calculate_final_scores` has no error channel and
performs the division unconditionally. -/
theorem zero_weighted_max_counterexample :
    weightedMaxSum rowsZeroMax 1 = 0 ∧
      calculate_final_scores rowsZeroMax = [⟨1, "B, A", .nonFinite⟩] := by
  constructor
  · norm_num [weightedMaxSum, rowsZeroMax, round_to_two_decimals, round_eq]
  · norm_num [calculate_final_scores, candidate_scores, addRow, updEntry, newEntry,
      displayName, strTrim, finalScoreVal, fdiv, FVal.mulQ, round_to_two_decimals, round_eq,
      rowsZeroMax]
    decide

/-- C2 (amended): whenever a candidate appears in the aggregation rows and
its accumulated weighted maximum `M` is zero, the output contains an entry
for that candidate whose final score is the non-finite float of the
division by zero — no error is surfaced. -/
theorem zero_weighted_max_nonfinite (rows : List CandidateScore) (cid : Nat)
    (hmem : ∃ r ∈ rows, r.candidate_id = cid)
    (hzero : weightedMaxSum rows cid = 0) :
    ∃ e ∈ calculate_final_scores rows,
      e.candidate_id = cid ∧ e.final_score = FVal.nonFinite := by
  have hk : cid ∈ accKeys (candidate_scores rows) := mem_keys_candidate_scores.mpr hmem
  obtain ⟨e0, he0, hcid⟩ := List.mem_map.mp hk
  refine ⟨⟨e0.cid, e0.name, finalScoreVal e0.s e0.m⟩, List.mem_map_of_mem _ he0, hcid, ?_⟩
  obtain ⟨-, -, hm⟩ := candidate_scores_entry rows e0 he0
  show finalScoreVal e0.s e0.m = FVal.nonFinite
  rw [hm, hcid, hzero]
  unfold finalScoreVal fdiv
  rw [if_pos rfl]
  rfl

/-- C2 witness: the amended statement at the concrete zero-maximum row. -/
theorem zero_weighted_max_nonfinite_witness :
    ∃ e ∈ calculate_final_scores rowsZeroMax,
      e.candidate_id = 1 ∧ e.final_score = FVal.nonFinite := by
  refine zero_weighted_max_nonfinite rowsZeroMax 1
    ⟨⟨1, "A", "", "B", 5, 0, 5/2, 0⟩, by simp [rowsZeroMax], rfl⟩ ?_
  norm_num [weightedMaxSum, rowsZeroMax, round_to_two_decimals, round_eq]

theorem calculate_dbTwo_eval :
    calculate_final_scores (sumScoresByCandidateCategory dbTwo 7) = [entryX, entryY] := by
  norm_num [calculate_final_scores, candidate_scores, addRow, updEntry, newEntry,
    displayName, strTrim, finalScoreVal, fdiv, FVal.mulQ, round_to_two_decimals, round_eq,
    sumScoresByCandidateCategory, joinedRows, groupKeys, addKey, groupRow,
    sortKeys, insKey, keyLe, dbTwo, entryX, entryY]
  decide

/-- C9 counterexample: the handler emits the entries of the final
`HashMap` in its iteration order, which is not a function of the input
snapshot; both orders of the two entries are possible runs on the same
snapshot, and they are not byte-identical. -/
theorem run_order_counterexample :
    FinalScoresRun dbTwo 7 [entryX, entryY] ∧
      FinalScoresRun dbTwo 7 [entryY, entryX] ∧
      ([entryX, entryY] : List CandidateFinalScore2) ≠ [entryY, entryX] := by
  refine ⟨?_, ?_, ?_⟩
  · unfold FinalScoresRun
    rw [calculate_dbTwo_eval]
  · unfold FinalScoresRun
    rw [calculate_dbTwo_eval]
    exact List.Perm.swap entryX entryY []
  · intro h
    simp [entryX, entryY] at h

/-- C9 (amended): two runs of `get_candidate_final_scores` on the same
snapshot produce the same entries up to order (the permutation of the
hash-map iteration). -/
theorem run_entries_perm (db : Db) (ev : Nat) (o1 o2 : List CandidateFinalScore2)
    (h1 : FinalScoresRun db ev o1) (h2 : FinalScoresRun db ev o2) : o1.Perm o2 :=
  h1.trans h2.symm

/-- C9 witness: the permutation relation between two concrete runs. -/
theorem run_entries_perm_witness :
    ([entryX, entryY] : List CandidateFinalScore2).Perm [entryY, entryX] := by
  refine run_entries_perm dbTwo 7 _ _ ?_ ?_
  · unfold FinalScoresRun
    rw [calculate_dbTwo_eval]
  · unfold FinalScoresRun
    rw [calculate_dbTwo_eval]
    exact List.Perm.swap entryX entryY []

/-- C4 counterexample: with 3 male and 2 female candidates the first
block of the sheet occupies 9 distinct rows (rows 0–8), not the
`3 + 2 + 3 = 8` the claim states, and the next block's header is written
at row 10 — two rows after the last occupied row — not 5 rows after the
block ends. -/
theorem block_row_span_counterexample :
    (((generate_score_spreadsheet dbLayout).filter fun w => decide (w.row < 10)).map
        (fun w => w.row)).dedup.length = 9 ∧
      (maleCands dbLayout).length = 3 ∧
      (femaleCands dbLayout).length = 2 ∧
      (3 + 2 + 3 : Nat) ≠ 9 ∧
      cellAt (generate_score_spreadsheet dbLayout) 10 0 = some (.str "Beta2") ∧
      (10 : Nat) ≠ 8 + 5 := by
  refine ⟨by decide, by decide, by decide, by decide, by decide, by decide⟩

/-- C4 (amended): the block of category `k` occupies exactly the
consecutive rows `blockStart k .. blockStart k + m + f + 3` — that is
`m + f + 4` rows — and the next block begins 2 rows after the block's
last occupied row (one blank row between blocks). -/
theorem block_row_span (db : Db) (k : Nat) (cat : Category)
    (h : db.categories[k]? = some cat) :
    (∀ ρ : Nat,
      (∃ w ∈ generate_score_spreadsheet db,
          w.row = ρ ∧ blockStart db k ≤ ρ ∧ ρ < blockStart db (k + 1)) ↔
        blockStart db k ≤ ρ ∧
          ρ ≤ blockStart db k + (maleCands db).length + (femaleCands db).length + 3) ∧
    blockStart db (k + 1) =
      (blockStart db k + (maleCands db).length + (femaleCands db).length + 3) + 2 := by
  constructor
  · intro ρ
    exact sheet_row_window h ρ
  · have hmf := males_females_length db
    have hstep : blockStart db (k + 1) = blockStart db k + db.candidates.length + 5 := by
      simp only [blockStart]
      ring
    omega

/-- C4 witness: the amended row-span facts at the concrete layout. -/
theorem block_row_span_witness :
    blockStart dbLayout 1 =
      (blockStart dbLayout 0 + (maleCands dbLayout).length +
        (femaleCands dbLayout).length + 3) + 2 :=
  (block_row_span dbLayout 0 ⟨10, "Alpha2", 1/2, 1⟩ rfl).2

/-- C5 counterexample: a judge whose exclusion flag is set in both
readings (`is_active = false`, `score_exclusion = true`) still appears as
a judge column of the block — the query of `generate_score_spreadsheet`
filters only on `event_id`. -/
theorem judge_exclusion_counterexample :
    dbExcluded.judges = [judgeEx] ∧
      judgeEx.is_active = false ∧
      judgeEx.score_exclusion = true ∧
      cellAt (generate_score_spreadsheet dbExcluded) 1 2 = some (.str "ExJudge") := by
  refine ⟨rfl, rfl, rfl, by decide⟩

/-- C5 (amended): the judge columns of each block hold all judges of the
category's event, in query order and with no exclusion filter; the
Average Score and weight headers sit immediately after them (columns
`2 + J` and `3 + J`, so removing one judge from the store shifts both one
column left), and the header row has no column beyond `3 + J`. -/
theorem judge_columns (db : Db) (k : Nat) (cat : Category)
    (h : db.categories[k]? = some cat) :
    (∀ (i : Nat) (j : Judge), (eventJudges db cat)[i]? = some j →
      cellAt (generate_score_spreadsheet db) (blockStart db k + 1) (2 + i) =
        some (.str j.name)) ∧
    cellAt (generate_score_spreadsheet db) (blockStart db k + 1)
        (2 + (eventJudges db cat).length) = some (.str "Average Score") ∧
    cellAt (generate_score_spreadsheet db) (blockStart db k + 1)
        (3 + (eventJudges db cat).length) = some (.pct cat.weight) ∧
    (∀ c2 : Nat, 3 + (eventJudges db cat).length < c2 →
      cellAt (generate_score_spreadsheet db) (blockStart db k + 1) c2 = none) := by
  have hhi : blockStart db k + 1 ≤
      blockStart db k + (maleCands db).length + (femaleCands db).length + 3 := by omega
  refine ⟨?_, ?_, ?_, ?_⟩
  · intro i j hj
    show findCell (blockStart db k + 1) (2 + i) (generate_score_spreadsheet db) = _
    rw [findCell_sheet_block h (2 + i) (by omega) hhi]
    exact findCell_renderBlock_judgeName db (maleCands db) (femaleCands db) cat
      (blockStart db k) hj
  · show findCell (blockStart db k + 1) (2 + (eventJudges db cat).length)
      (generate_score_spreadsheet db) = _
    rw [findCell_sheet_block h (2 + (eventJudges db cat).length) (by omega) hhi]
    exact findCell_renderBlock_avgHdr db (maleCands db) (femaleCands db) cat (blockStart db k)
  · show findCell (blockStart db k + 1) (3 + (eventJudges db cat).length)
      (generate_score_spreadsheet db) = _
    rw [findCell_sheet_block h (3 + (eventJudges db cat).length) (by omega) hhi]
    exact findCell_renderBlock_pctHdr db (maleCands db) (femaleCands db) cat (blockStart db k)
  · intro c2 hc2
    show findCell (blockStart db k + 1) c2 (generate_score_spreadsheet db) = _
    rw [findCell_sheet_block h c2 (by omega) hhi]
    exact findCell_renderBlock_hdrBeyond db (maleCands db) (femaleCands db) cat
      (blockStart db k) hc2

/-- C5 witness: the flagged judge's column and the following header at the
concrete snapshot. -/
theorem judge_columns_witness :
    cellAt (generate_score_spreadsheet dbExcluded) 1 2 = some (.str judgeEx.name) ∧
      cellAt (generate_score_spreadsheet dbExcluded) 1 3 = some (.str "Average Score") := by
  have h := judge_columns dbExcluded 0 ⟨10, "Solo5", 1/2, 1⟩ rfl
  exact ⟨h.1 0 judgeEx (by decide), h.2.1⟩

/-- C6 counterexample: `generate_score_spreadsheet` takes no event id and
renders every category in the store — the sheet of a store holding
categories of two different events shows both block headers, so no single
event id covers the rendered categories. -/
theorem event_scoping_counterexample :
    cellAt (generate_score_spreadsheet dbTwoEvents) 0 0 = some (.str "AlphaE") ∧
      cellAt (generate_score_spreadsheet dbTwoEvents) (blockStart dbTwoEvents 1) 0 =
        some (.str "BetaE") ∧
      dbTwoEvents.categories = [⟨10, "AlphaE", 1/2, 1⟩, ⟨11, "BetaE", 1/2, 2⟩] ∧
      ¬OnlyEventCategories dbTwoEvents 1 ∧ ¬OnlyEventCategories dbTwoEvents 2 := by
  refine ⟨by decide, by decide, rfl, ?_, ?_⟩
  · unfold OnlyEventCategories
    decide
  · unfold OnlyEventCategories
    decide

/-- C6 (amended): the sheet renders exactly one block per category of the
whole store, regardless of event: block `k` is headed by the name of the
`k`-th stored category, and no write lies at or beyond the row where a
further block would begin. -/
theorem blocks_per_store_category (db : Db) (k : Nat) (cat : Category)
    (h : db.categories[k]? = some cat) :
    cellAt (generate_score_spreadsheet db) (blockStart db k) 0 = some (.str cat.name) ∧
    (∀ w ∈ generate_score_spreadsheet db,
      w.row < blockStart db db.categories.length) := by
  constructor
  · show findCell (blockStart db k) 0 (generate_score_spreadsheet db) = _
    rw [findCell_sheet_block h 0 (Nat.le_refl _) (by omega)]
    exact findCell_renderBlock_title db (maleCands db) (femaleCands db) cat (blockStart db k)
  · intro w hw
    rw [generate_eq] at hw
    obtain ⟨j, catj, hj, hwj⟩ := mem_renderBlocks_block hw
    have hjlt : j < db.categories.length := by
      by_contra hge
      rw [List.getElem?_eq_none (by omega)] at hj
      exact Option.noConfusion hj
    obtain ⟨-, hb2⟩ := row_renderBlock_bounds hwj
    rw [blockStart_eq] at hb2
    have hmf := males_females_length db
    have hstep : blockStart db (j + 1) = blockStart db j + db.candidates.length + 5 := by
      simp only [blockStart]
      ring
    have hmono : blockStart db (j + 1) ≤ blockStart db db.categories.length :=
      Nat.mul_le_mul_right _ (by omega)
    omega

/-- C6 witness: the second stored category — of another event — gets the
second block. -/
theorem blocks_per_store_category_witness :
    cellAt (generate_score_spreadsheet dbTwoEvents) (blockStart dbTwoEvents 1) 0 =
      some (.str "BetaE") :=
  (blocks_per_store_category dbTwoEvents 1 ⟨11, "BetaE", 1/2, 2⟩ rfl).1

/-- C7: in every candidate row of every category block, the cell of judge
`jj` holds the scalar sum of that judge's score rows for the candidate in
the category; the next cell holds the sum of the judge subtotals divided
by the judge count, formatted to two decimals; and the last cell holds
that average times the category weight, formatted to two decimals. -/
theorem grid_candidate_row_cells (db : Db) (k : Nat) (cat : Category) (i : Nat)
    (cand : Candidate) (h : db.categories[k]? = some cat) :
    ((maleCands db)[i]? = some cand →
      (∀ (jj : Nat) (j : Judge), (eventJudges db cat)[jj]? = some j →
        cellAt (generate_score_spreadsheet db) (blockStart db k + 3 + i) (2 + jj) =
          some (.int (judgeSubtotal db cand cat j))) ∧
      cellAt (generate_score_spreadsheet db) (blockStart db k + 3 + i)
          (2 + (eventJudges db cat).length) =
        some (.str (fmtFVal (fdiv (totalScore db cand cat (eventJudges db cat))
          ((eventJudges db cat).length : ℚ)))) ∧
      cellAt (generate_score_spreadsheet db) (blockStart db k + 3 + i)
          (3 + (eventJudges db cat).length) =
        some (.str (fmtFVal ((fdiv (totalScore db cand cat (eventJudges db cat))
          ((eventJudges db cat).length : ℚ)).mulQ cat.weight)))) ∧
    ((femaleCands db)[i]? = some cand →
      (∀ (jj : Nat) (j : Judge), (eventJudges db cat)[jj]? = some j →
        cellAt (generate_score_spreadsheet db)
            (blockStart db k + 4 + (maleCands db).length + i) (2 + jj) =
          some (.int (judgeSubtotal db cand cat j))) ∧
      cellAt (generate_score_spreadsheet db)
          (blockStart db k + 4 + (maleCands db).length + i)
          (2 + (eventJudges db cat).length) =
        some (.str (fmtFVal (fdiv (totalScore db cand cat (eventJudges db cat))
          ((eventJudges db cat).length : ℚ)))) ∧
      cellAt (generate_score_spreadsheet db)
          (blockStart db k + 4 + (maleCands db).length + i)
          (3 + (eventJudges db cat).length) =
        some (.str (fmtFVal ((fdiv (totalScore db cand cat (eventJudges db cat))
          ((eventJudges db cat).length : ℚ)).mulQ cat.weight)))) := by
  constructor
  · intro hm
    have hi : i < (maleCands db).length := by
      by_contra hge
      rw [List.getElem?_eq_none (by omega)] at hm
      exact Option.noConfusion hm
    have hhi : blockStart db k + 3 + i ≤
        blockStart db k + (maleCands db).length + (femaleCands db).length + 3 := by omega
    refine ⟨?_, ?_, ?_⟩
    · intro jj j hj
      show findCell (blockStart db k + 3 + i) (2 + jj) (generate_score_spreadsheet db) = _
      rw [findCell_sheet_block h (2 + jj) (by omega) hhi]
      rw [findCell_renderBlock_maleRow db (maleCands db) (femaleCands db) cat
        (blockStart db k) hm (2 + jj)]
      exact findCell_candRow_judge db cand cat (blockStart db k + 3 + i) 0 hj
    · show findCell (blockStart db k + 3 + i) (2 + (eventJudges db cat).length)
        (generate_score_spreadsheet db) = _
      rw [findCell_sheet_block h (2 + (eventJudges db cat).length) (by omega) hhi]
      rw [findCell_renderBlock_maleRow db (maleCands db) (femaleCands db) cat
        (blockStart db k) hm (2 + (eventJudges db cat).length)]
      exact findCell_candRow_avg db cand cat (eventJudges db cat) (blockStart db k + 3 + i) 0
    · show findCell (blockStart db k + 3 + i) (3 + (eventJudges db cat).length)
        (generate_score_spreadsheet db) = _
      rw [findCell_sheet_block h (3 + (eventJudges db cat).length) (by omega) hhi]
      rw [findCell_renderBlock_maleRow db (maleCands db) (femaleCands db) cat
        (blockStart db k) hm (3 + (eventJudges db cat).length)]
      exact findCell_candRow_pct db cand cat (eventJudges db cat) (blockStart db k + 3 + i) 0
  · intro hf
    have hi : i < (femaleCands db).length := by
      by_contra hge
      rw [List.getElem?_eq_none (by omega)] at hf
      exact Option.noConfusion hf
    have hhi : blockStart db k + 4 + (maleCands db).length + i ≤
        blockStart db k + (maleCands db).length + (femaleCands db).length + 3 := by omega
    refine ⟨?_, ?_, ?_⟩
    · intro jj j hj
      show findCell (blockStart db k + 4 + (maleCands db).length + i) (2 + jj)
        (generate_score_spreadsheet db) = _
      rw [findCell_sheet_block h (2 + jj) (by omega) hhi]
      rw [findCell_renderBlock_femaleRow db (maleCands db) (femaleCands db) cat
        (blockStart db k) hf (2 + jj)]
      exact findCell_candRow_judge db cand cat
        (blockStart db k + 4 + (maleCands db).length + i) 0 hj
    · show findCell (blockStart db k + 4 + (maleCands db).length + i)
        (2 + (eventJudges db cat).length) (generate_score_spreadsheet db) = _
      rw [findCell_sheet_block h (2 + (eventJudges db cat).length) (by omega) hhi]
      rw [findCell_renderBlock_femaleRow db (maleCands db) (femaleCands db) cat
        (blockStart db k) hf (2 + (eventJudges db cat).length)]
      exact findCell_candRow_avg db cand cat (eventJudges db cat)
        (blockStart db k + 4 + (maleCands db).length + i) 0
    · show findCell (blockStart db k + 4 + (maleCands db).length + i)
        (3 + (eventJudges db cat).length) (generate_score_spreadsheet db) = _
      rw [findCell_sheet_block h (3 + (eventJudges db cat).length) (by omega) hhi]
      rw [findCell_renderBlock_femaleRow db (maleCands db) (femaleCands db) cat
        (blockStart db k) hf (3 + (eventJudges db cat).length)]
      exact findCell_candRow_pct db cand cat (eventJudges db cat)
        (blockStart db k + 4 + (maleCands db).length + i) 0

/-- C7 witness: the judge cell of the one candidate row of the concrete
snapshot is the scalar sum 7 + 5 = 12 of the judge's two score rows. -/
theorem grid_candidate_row_cells_witness :
    cellAt (generate_score_spreadsheet dbGrid) 3 2 =
        some (.int (judgeSubtotal dbGrid candJo catTalent judgeOne)) ∧
      judgeSubtotal dbGrid candJo catTalent judgeOne = 12 := by
  constructor
  · exact ((grid_candidate_row_cells dbGrid 0 catTalent 0 candJo rfl).1 (by decide)).1
      0 judgeOne (by decide)
  · decide

/-- C10: every candidate name cell of the grid holds the exact string
`"{last}, {first} {middle}"` with no trimming, so an empty middle name
leaves a trailing space — unlike the aggregator's display name, which is
trimmed. -/
theorem grid_name_cells (db : Db) (k : Nat) (cat : Category) (i : Nat) (cand : Candidate)
    (h : db.categories[k]? = some cat) :
    ((maleCands db)[i]? = some cand →
      cellAt (generate_score_spreadsheet db) (blockStart db k + 3 + i) 1 =
        some (.str (gridName cand))) ∧
    ((femaleCands db)[i]? = some cand →
      cellAt (generate_score_spreadsheet db)
          (blockStart db k + 4 + (maleCands db).length + i) 1 =
        some (.str (gridName cand))) ∧
    gridName candNoMid = "Hopper, Grace " ∧
    displayName rowNoMid = "Hopper, Grace" ∧
    gridName candNoMid ≠ displayName rowNoMid := by
  refine ⟨?_, ?_, by decide, by decide, by decide⟩
  · intro hm
    have hi : i < (maleCands db).length := by
      by_contra hge
      rw [List.getElem?_eq_none (by omega)] at hm
      exact Option.noConfusion hm
    show findCell (blockStart db k + 3 + i) 1 (generate_score_spreadsheet db) = _
    rw [findCell_sheet_block h 1 (by omega) (by omega)]
    rw [findCell_renderBlock_maleRow db (maleCands db) (femaleCands db) cat
      (blockStart db k) hm 1]
    exact findCell_candRow_name db cand cat (eventJudges db cat) (blockStart db k + 3 + i) 0
  · intro hf
    have hi : i < (femaleCands db).length := by
      by_contra hge
      rw [List.getElem?_eq_none (by omega)] at hf
      exact Option.noConfusion hf
    show findCell (blockStart db k + 4 + (maleCands db).length + i) 1
      (generate_score_spreadsheet db) = _
    rw [findCell_sheet_block h 1 (by omega) (by omega)]
    rw [findCell_renderBlock_femaleRow db (maleCands db) (femaleCands db) cat
      (blockStart db k) hf 1]
    exact findCell_candRow_name db cand cat (eventJudges db cat)
      (blockStart db k + 4 + (maleCands db).length + i) 0

/-- C10 witness: the name cell of the concrete candidate with empty middle
name carries the trailing space. -/
theorem grid_name_cells_witness :
    cellAt (generate_score_spreadsheet dbGrid) 3 1 = some (.str (gridName candJo)) ∧
      gridName candJo = "Kim, Jo " := by
  constructor
  · exact (grid_name_cells dbGrid 0 catTalent 0 candJo rfl).1 (by decide)
  · decide

/-- C8: the export succeeds exactly when every query it performs succeeds
(any retrieval failure aborts the whole export); on success the output is
the fixed 10-column header row followed by one record per score row in
category-then-criterion-then-store order; and the record count is exactly
the total number of score rows of the selected categories' criteria. -/
theorem generate_csv_contract (st : CsvStore) :
    (exceptOk (generate_csv st) = true ↔ csvQueriesOk st) ∧
    (csvQueriesOk st →
      generate_csv st = .ok (csvHeaders :: flatCsvRecords st (okList st.categoriesQ))) ∧
    (∀ rows, generate_csv st = .ok rows →
      rows.head? = some csvHeaders ∧
        rows.length = 1 + totalScoreRows st (okList st.categoriesQ)) ∧
    csvHeaders.length = 10 :=
  ⟨generate_csv_ok_iff st, generate_csv_success st, generate_csv_shape st, rfl⟩

/-- C8 witness: the contract instantiated on a concrete store with one
category, one criterion and two score rows. -/
theorem generate_csv_contract_witness :
    generate_csv stCsv =
        .ok (csvHeaders :: flatCsvRecords stCsv (okList stCsv.categoriesQ)) ∧
      totalScoreRows stCsv (okList stCsv.categoriesQ) = 2 := by
  constructor
  · exact (generate_csv_contract stCsv).2.1 ⟨rfl, fun cat hcat => ⟨rfl, fun cri hcri => rfl⟩⟩
  · decide
